import Mathlib

/-!
Shallow embedding of the plasma object directory
(`ray/object_manager/plasma/object_directory.cc`) together with proofs about
its operations.  Pure data is modelled directly; the mutable directory state
(object table, deletion cache, eviction policy, allocator, notification
stream) is threaded explicitly.  Operations whose source contains
`RAY_CHECK` assertions return `Option`: `none` models a failed check
(process abort).
-/

/-- Object identifiers are abstract fixed-width ids; equality is all we need. -/
abbrev ObjectID := Nat

/-- The per-object state machine: `PLASMA_CREATED`, `PLASMA_SEALED`,
`PLASMA_EVICTED` in the source. -/
inductive ObjectState where
  | created
  | sealed
  | evicted
deriving DecidableEq, Repr

/-- One record of `ObjectTableEntry` from the source header: sizes, allocation
info, reference count and timing.  `pointer = none` models a null pointer. -/
structure ObjectTableEntry where
  data_size : Int := 0
  metadata_size : Int := 0
  pointer : Option Nat := none
  device_num : Nat := 0
  fd : Int := -1
  map_size : Int := 0
  offset : Int := 0
  ref_count : Int := 0
  create_time : Int := 0
  construct_duration : Int := -1
  state : ObjectState := .created
deriving DecidableEq, Repr

/-- `ObjectTableEntry::ObjectSize()`: data plus metadata bytes. -/
def ObjectTableEntry.ObjectSize (e : ObjectTableEntry) : Int :=
  e.data_size + e.metadata_size

/-- Modelled from the spec: `ObjectTableEntry::Reset` is declared in the class
header, which is not among the provided sources; per spec section 4.2,
`free_object` resets `pointer`, `fd`, `map_size` and `offset`. -/
def ObjectTableEntry.Reset (e : ObjectTableEntry) : ObjectTableEntry :=
  { e with pointer := none, fd := -1, map_size := 0, offset := 0 }

/-- `ObjectTableEntry::FreeObject` (source lines 21-33, host path): return the
memory, reset the allocation fields and set the state to `PLASMA_EVICTED`.
The allocator-side accounting is performed by `ObjectDirectory.freeEntry`
because `PlasmaAllocator` is a global in the source. -/
def ObjectTableEntry.FreeObject (e : ObjectTableEntry) : ObjectTableEntry :=
  { e.Reset with state := .evicted }

/-- Modelled from the spec: the shared-memory allocator (spec section 4.1) is
consumed through a small interface and its implementation is not among the
provided sources.  It hands out addresses against a fixed footprint; a request
that would exceed the footprint fails with a null pointer. -/
structure PlasmaAllocator where
  footprint_limit : Int := 0
  allocated : Int := 0
  next_address : Nat := 0
deriving DecidableEq, Repr

/-- Modelled from the spec: `memalign(alignment, size)` returns a fresh
address, or null when the footprint would be exceeded.  Alignment is not
observable in the model. -/
def PlasmaAllocator.Memalign (a : PlasmaAllocator) (size : Int) :
    Option (PlasmaAllocator × Nat) :=
  if a.allocated + size ≤ a.footprint_limit then
    some ({ a with allocated := a.allocated + size,
                   next_address := a.next_address + size.toNat + 1 }, a.next_address)
  else none

/-- Modelled from the spec: `free(pointer, size)` returns `size` bytes to the
footprint. -/
def PlasmaAllocator.Free (a : PlasmaAllocator) (size : Int) : PlasmaAllocator :=
  { a with allocated := a.allocated - size }

/-- Status values surfaced by the create/allocate paths. -/
inductive Status where
  | ok
  | objectStoreFull
  | outOfMemory
  | objectExists
deriving DecidableEq, Repr

/-- `PlasmaError` values surfaced by `DeleteObject`. -/
inductive PlasmaError where
  | ok
  | objectNonexistent
  | objectNotSealed
  | objectInUse
deriving DecidableEq, Repr

/-- `ObjectTableEntry::AllocateMemory` (source lines 35-77).  Host path
(`device_id = 0`): ask the allocator; on null, `Reset` and report
`ObjectStoreFull`; on success populate the allocation fields, set state to
`PLASMA_CREATED`, stamp `create_time` and clear `construct_duration`.  The
device path without CUDA support reports `OutOfMemory`. -/
def ObjectTableEntry.AllocateMemory (e : ObjectTableEntry) (a : PlasmaAllocator)
    (device_id : Nat) (size : Int) (now : Int) :
    ObjectTableEntry × PlasmaAllocator × Status :=
  if device_id = 0 then
    match a.Memalign size with
    | none => (e.Reset, a, .objectStoreFull)
    | some (a', addr) =>
        ({ e with pointer := some addr, fd := 1, map_size := a'.footprint_limit,
                  offset := Int.ofNat addr, state := .created, device_num := 0,
                  create_time := now, construct_duration := -1 }, a', .ok)
  else (e, a, .outOfMemory)

/-- Notification record (`ObjectInfoT`): deletion notifications set only the
id and `is_deletion`; seal notifications carry the sizes. -/
structure ObjectInfoT where
  object_id : ObjectID := 0
  data_size : Int := 0
  metadata_size : Int := 0
  is_deletion : Bool := false
deriving DecidableEq, Repr

/-- The client-visible object descriptor populated by `PlasmaObject_init`. -/
structure PlasmaObject where
  store_fd : Int := -1
  data_offset : Int := 0
  metadata_offset : Int := 0
  data_size : Int := 0
  metadata_size : Int := 0
  device_num : Nat := 0
  map_size : Int := 0
  initialized : Bool := false
deriving DecidableEq, Repr

/-- `PlasmaObject_init` (source lines 79-98): populate the descriptor from an
entry; `metadata_offset = offset + data_size`. -/
def PlasmaObject_init (e : ObjectTableEntry) : PlasmaObject :=
  { store_fd := e.fd, data_offset := e.offset,
    metadata_offset := e.offset + e.data_size, data_size := e.data_size,
    metadata_size := e.metadata_size, device_num := e.device_num,
    map_size := e.map_size, initialized := true }

/-- Modelled from the spec: the eviction policy (spec section 4.3) is a
separate component whose implementation is not among the provided sources.
It keeps the idle objects in LRU order (least recently used first) together
with the in-use set; per-client quota bookkeeping is not configured, so
`EnforcePerClientQuota` succeeds without selecting victims. -/
structure EvictionPolicy where
  idle_lru : List (ObjectID × Int) := []
  in_use : List (ObjectID × Int) := []
deriving DecidableEq, Repr

/-- Remove the pairs carrying the given id from a policy list. -/
def removeId (l : List (ObjectID × Int)) (id : ObjectID) : List (ObjectID × Int) :=
  l.filter (fun p => p.1 ≠ id)

/-- Modelled from the spec: `begin_object_access` moves the object from the
idle set to the in-use set. -/
def EvictionPolicy.BeginObjectAccess (p : EvictionPolicy) (id : ObjectID)
    (size : Int) : EvictionPolicy :=
  { idle_lru := removeId p.idle_lru id, in_use := p.in_use ++ [(id, size)] }

/-- Modelled from the spec: `end_object_access` moves the object from the
in-use set to the most-recent end of the idle LRU list. -/
def EvictionPolicy.EndObjectAccess (p : EvictionPolicy) (id : ObjectID)
    (size : Int) : EvictionPolicy :=
  { idle_lru := p.idle_lru ++ [(id, size)], in_use := removeId p.in_use id }

/-- Modelled from the spec: `object_created` records the new object as in
use. -/
def EvictionPolicy.ObjectCreated (p : EvictionPolicy) (id : ObjectID)
    (size : Int) : EvictionPolicy :=
  { p with in_use := p.in_use ++ [(id, size)] }

/-- Modelled from the spec: `remove_object` drops the object from the
policy's tracking entirely. -/
def EvictionPolicy.RemoveObject (p : EvictionPolicy) (id : ObjectID) :
    EvictionPolicy :=
  { idle_lru := removeId p.idle_lru id, in_use := removeId p.in_use id }

/-- Modelled from the spec: `client_disconnected` adjusts only the policy's
per-client access accounting, which is not observable in this model (the
directory state records no per-client policy data), so the policy value is
unchanged. -/
def EvictionPolicy.ClientDisconnected (p : EvictionPolicy) : EvictionPolicy := p

/-- Walk the idle LRU list front-first, selecting victims until the
accumulated bytes reach `needed`; returns the victims and their byte total. -/
def chooseFromLRU : List (ObjectID × Int) → Int → List ObjectID × Int
  | [], _ => ([], 0)
  | (id, sz) :: rest, needed =>
      if needed ≤ 0 then ([], 0)
      else
        let r := chooseFromLRU rest (needed - sz)
        (id :: r.1, sz + r.2)

/-- Modelled from the spec: `require_space(size)` computes the shortfall
against the allocator footprint, selects idle victims in LRU order, removes
them from its own tracking, and reports whether the selected bytes cover the
shortfall.  The selected ids are returned even on failure and the caller
evicts them. -/
def EvictionPolicy.RequireSpace (p : EvictionPolicy) (size : Int)
    (a : PlasmaAllocator) : EvictionPolicy × List ObjectID × Bool :=
  let required := a.allocated + size - a.footprint_limit
  let r := chooseFromLRU p.idle_lru required
  ({ p with idle_lru := r.1.foldl removeId p.idle_lru }, r.1, required ≤ r.2)

/-- Modelled from the spec: `choose_objects_to_evict(num_bytes)` selects idle
victims in LRU order totalling at least `num_bytes` where possible, removes
them from its tracking, and reports the bytes selected. -/
def EvictionPolicy.ChooseObjectsToEvict (p : EvictionPolicy) (num_bytes : Int) :
    EvictionPolicy × List ObjectID × Int :=
  let r := chooseFromLRU p.idle_lru num_bytes
  ({ p with idle_lru := r.1.foldl removeId p.idle_lru }, r.1, r.2)

/-- A client record: the set of object ids the client currently references,
kept as a duplicate-free list. -/
structure Client where
  object_ids : List ObjectID := []
deriving DecidableEq, Repr

/-- The object table, `ObjectID → ObjectTableEntry`, as an association list
with unique keys. -/
abbrev ObjectTable := List (ObjectID × ObjectTableEntry)

/-- Lookup in the object table (`object_table_.find`). -/
def tableFind : ObjectTable → ObjectID → Option ObjectTableEntry
  | [], _ => none
  | (k, v) :: rest, id => if k = id then some v else tableFind rest id

/-- Erase a key from the object table (`object_table_.erase`). -/
def tableErase : ObjectTable → ObjectID → ObjectTable
  | [], _ => []
  | (k, v) :: rest, id => if k = id then rest else (k, v) :: tableErase rest id

/-- Replace the value stored under a key; a missing key leaves the table
unchanged (the source always updates entries in place through a pointer). -/
def tableUpdate : ObjectTable → ObjectID → ObjectTableEntry → ObjectTable
  | [], _, _ => []
  | (k, v) :: rest, id, e =>
      if k = id then (k, e) :: rest else (k, v) :: tableUpdate rest id e

/-- Insert an id into the deletion cache (`deletion_cache_.emplace`): a set
insertion, a no-op when already present. -/
def cacheAdd (cache : List ObjectID) (id : ObjectID) : List ObjectID :=
  if id ∈ cache then cache else cache ++ [id]

/-- The directory state: object table, deletion cache, eviction policy,
allocator, optional external store and the stream of emitted notification
batches.  `external_store = some b` means an external store is configured and
`b` tells whether its `Get` calls succeed; `none` means no external store. -/
structure ObjectDirectory where
  object_table : ObjectTable := []
  deletion_cache : List ObjectID := []
  eviction_policy : EvictionPolicy := {}
  allocator : PlasmaAllocator := {}
  external_store : Option Bool := none
  notifications : List (List ObjectInfoT) := []
deriving DecidableEq, Repr

/-- One call of `notifications_callback_`: append a batch of records. -/
def ObjectDirectory.emit (d : ObjectDirectory) (infos : List ObjectInfoT) :
    ObjectDirectory :=
  { d with notifications := d.notifications ++ [infos] }

/-- Apply `ObjectTableEntry::FreeObject` to the entry stored under `id`,
returning its bytes to the allocator (host objects only). -/
def ObjectDirectory.freeEntry (d : ObjectDirectory) (id : ObjectID) :
    ObjectDirectory :=
  match tableFind d.object_table id with
  | none => d
  | some e =>
      { d with object_table := tableUpdate d.object_table id e.FreeObject,
               allocator := if e.device_num = 0 then d.allocator.Free e.ObjectSize
                            else d.allocator }

/-- Modelled from the spec: `EraseObject` is declared in the directory header,
which is not among the provided sources; per the spec, removal destroys the
entry, returning its memory when the entry still holds some. -/
def ObjectDirectory.EraseObject (d : ObjectDirectory) (id : ObjectID) :
    ObjectDirectory :=
  match tableFind d.object_table id with
  | none => d
  | some e =>
      { d with object_table := tableErase d.object_table id,
               allocator := if e.device_num = 0 ∧ e.pointer.isSome then
                              d.allocator.Free e.ObjectSize
                            else d.allocator }

/-- The first loop of `EvictObjectsInternal` (source lines 348-376): for each
id the entry must exist, be sealed and be idle (`RAY_CHECK`s, modelled as
`none`).  With an external store the id is collected for the post-`Put` free;
without one the entry is freed at once and a deletion notification is
collected. -/
def evictLoop : ObjectDirectory → List ObjectID → List ObjectID →
    List ObjectInfoT → Option (ObjectDirectory × List ObjectID × List ObjectInfoT)
  | d, [], collected, infos => some (d, collected, infos)
  | d, id :: rest, collected, infos =>
      match tableFind d.object_table id with
      | none => none
      | some e =>
          if e.state = .sealed then
            if e.ref_count = 0 then
              if d.external_store.isSome then
                evictLoop d rest (collected ++ [id]) infos
              else
                evictLoop (d.freeEntry id) rest collected
                  (infos ++ [{ object_id := id, is_deletion := true }])
            else none
          else none

/-- `ObjectDirectory::EvictObjectsInternal` (source lines 340-386).  With an
external store, `Put` the batch (modelled as always succeeding, mirroring the
`RAY_CHECK_OK`) and then free each collected entry; without one, emit the
collected deletion notifications. -/
def ObjectDirectory.EvictObjectsInternal (d : ObjectDirectory)
    (object_ids : List ObjectID) : Option ObjectDirectory :=
  if object_ids.isEmpty then some d
  else
    match evictLoop d object_ids [] [] with
    | none => none
    | some (d1, collected, infos) =>
        if d1.external_store.isSome then
          some (collected.foldl ObjectDirectory.freeEntry d1)
        else
          some (d1.emit infos)

/-- `ObjectDirectory::DeleteObject` (source lines 239-271). -/
def ObjectDirectory.DeleteObject (d : ObjectDirectory) (id : ObjectID) :
    ObjectDirectory × PlasmaError :=
  match tableFind d.object_table id with
  | none => (d, .objectNonexistent)
  | some e =>
      if e.state ≠ .sealed then
        ({ d with deletion_cache := cacheAdd d.deletion_cache id },
         .objectNotSealed)
      else if e.ref_count ≠ 0 then
        ({ d with deletion_cache := cacheAdd d.deletion_cache id },
         .objectInUse)
      else
        (((({ d with eviction_policy := d.eviction_policy.RemoveObject id }
            : ObjectDirectory).EraseObject id)).emit
          [{ object_id := id, is_deletion := true }], .ok)

/-- `ObjectDirectory::AbortObject` (source lines 273-294): the entry must
exist and be sealed (`RAY_CHECK`s); a client that does not hold the id gets
0 with no change, the holder gets the entry erased, the id dropped from its
set, and 1. -/
def ObjectDirectory.AbortObject (d : ObjectDirectory) (id : ObjectID)
    (c : Client) : Option (ObjectDirectory × Client × Int) :=
  match tableFind d.object_table id with
  | none => none
  | some e =>
      if e.state = .sealed then
        if id ∈ c.object_ids then
          some (d.EraseObject id,
                { object_ids := c.object_ids.erase id }, 1)
        else some (d, c, 0)
      else none

/-- `ObjectDirectory::AddToClientObjectIds` (source lines 436-453), acting on
an explicit entry value because during creation the entry is not yet in the
table.  A client already holding the id causes an early return; otherwise a
zero reference count first tells the policy the object is in use, then the
count is bumped and the id joins the client's set. -/
def ObjectDirectory.AddToClientObjectIds (d : ObjectDirectory) (id : ObjectID)
    (e : ObjectTableEntry) (c : Client) :
    ObjectDirectory × ObjectTableEntry × Client :=
  if id ∈ c.object_ids then (d, e, c)
  else
    let d1 := if e.ref_count = 0 then
        { d with eviction_policy := d.eviction_policy.BeginObjectAccess id e.ObjectSize }
      else d
    (d1, { e with ref_count := e.ref_count + 1 },
     { object_ids := c.object_ids ++ [id] })

/-- `ObjectDirectory::RemoveFromClientObjectIds` (source lines 455-482): a
non-holder gets 0 with no change; a holder loses the id, the count drops, and
when it reaches zero the object either returns to the idle LRU or — when its
id sits in the deletion cache — is removed from the cache and evicted on the
spot. -/
def ObjectDirectory.RemoveFromClientObjectIds (d : ObjectDirectory)
    (id : ObjectID) (c : Client) : Option (ObjectDirectory × Client × Int) :=
  match tableFind d.object_table id with
  | none => none
  | some e =>
      if id ∈ c.object_ids then
        let c1 : Client := { object_ids := c.object_ids.erase id }
        let e1 : ObjectTableEntry := { e with ref_count := e.ref_count - 1 }
        let d1 : ObjectDirectory :=
          { d with object_table := tableUpdate d.object_table id e1 }
        if e1.ref_count = 0 then
          if id ∈ d1.deletion_cache then
            let d2 : ObjectDirectory :=
              { d1 with deletion_cache := d1.deletion_cache.erase id }
            match d2.EvictObjectsInternal [id] with
            | none => none
            | some d3 => some (d3, c1, 1)
          else
            let d2 : ObjectDirectory :=
              { d1 with eviction_policy :=
                  d1.eviction_policy.EndObjectAccess id e1.ObjectSize }
            some (d2, c1, 1)
        else some (d1, c1, 1)
      else some (d, c, 0)

/-- The retry loop of `ObjectDirectory::AllocateMemory` (source lines
507-530), with explicit fuel for the `while (true)`.  Each round tries the
entry-level allocation; on success the policy learns of the creation and the
client is registered; on failure with `evict_if_full` the policy's
`RequireSpace` victims are evicted before either giving up (`OutOfMemory`)
or retrying. -/
def allocLoop : Nat → ObjectDirectory → ObjectID → ObjectTableEntry → Int →
    Bool → Client → Bool → Int →
    Option (ObjectDirectory × ObjectTableEntry × Client × Status)
  | 0, _, _, _, _, _, _, _, _ => none
  | fuel + 1, d, id, e, size, evict_if_full, c, is_create, now =>
      let r := e.AllocateMemory d.allocator 0 size now
      let d1 := { d with allocator := r.2.1 }
      if r.2.2 = .ok then
        let d2 := { d1 with eviction_policy :=
                      d1.eviction_policy.ObjectCreated id size }
        let a := d2.AddToClientObjectIds id r.1 c
        some (a.1, a.2.1, a.2.2, .ok)
      else if evict_if_full then
        let q := d1.eviction_policy.RequireSpace size d1.allocator
        match (({ d1 with eviction_policy := q.1 }
            : ObjectDirectory).EvictObjectsInternal q.2.1) with
        | none => none
        | some d2 =>
            if q.2.2 then allocLoop fuel d2 id r.1 size evict_if_full c is_create now
            else some (d2, r.1, c, .outOfMemory)
      else some (d1, r.1, c, r.2.2)

/-- `ObjectDirectory::AllocateMemory` (source lines 485-531).  The entry must
not already hold memory (`RAY_CHECK`).  Device allocations delegate to the
entry.  On the host path, `evict_if_full` first runs the per-client quota
enforcement (modelled from the spec: no quota configured, so it succeeds and
selects nothing) and then enters the retry loop. -/
def ObjectDirectory.AllocateMemory (fuel : Nat) (d : ObjectDirectory)
    (id : ObjectID) (e : ObjectTableEntry) (size : Int) (evict_if_full : Bool)
    (c : Client) (is_create : Bool) (now : Int) (device_num : Nat) :
    Option (ObjectDirectory × ObjectTableEntry × Client × Status) :=
  if e.pointer.isSome then none
  else if device_num ≠ 0 then
    let r := e.AllocateMemory d.allocator device_num size now
    some ({ d with allocator := r.2.1 }, r.1, c, r.2.2)
  else if evict_if_full then
    match d.EvictObjectsInternal [] with
    | none => none
    | some d1 => allocLoop fuel d1 id e size evict_if_full c is_create now
  else allocLoop fuel d id e size evict_if_full c is_create now

/-- `ObjectDirectory::CreateObjectInternal` (source lines 388-412): an
existing id fails with `ObjectExists`; the total size must be positive
(`RAY_CHECK`); the entry is allocated and, on success, carries the sizes and
is inserted into the table.  Any allocation failure surfaces as
`OutOfMemory`. -/
def ObjectDirectory.CreateObjectInternal (fuel : Nat) (d : ObjectDirectory)
    (id : ObjectID) (evict_if_full : Bool) (data_size metadata_size : Int)
    (device_num : Nat) (c : Client) (now : Int) :
    Option (ObjectDirectory × Client × Option ObjectTableEntry × Status) :=
  if (tableFind d.object_table id).isSome then some (d, c, none, .objectExists)
  else
    let total_size := data_size + metadata_size
    if total_size ≤ 0 then none
    else
      match d.AllocateMemory fuel id {} total_size evict_if_full c true now
          device_num with
      | none => none
      | some (d1, e1, c1, s) =>
          if s = .ok then
            let e2 : ObjectTableEntry :=
              { e1 with data_size := data_size, metadata_size := metadata_size }
            some ({ d1 with object_table := d1.object_table ++ [(id, e2)] },
                  c1, some e2, .ok)
          else some (d1, c1, none, .outOfMemory)

/-- `ObjectDirectory::CreateObject` (source lines 197-207): create and return
the populated descriptor. -/
def ObjectDirectory.CreateObject (fuel : Nat) (d : ObjectDirectory)
    (id : ObjectID) (evict_if_full : Bool) (data_size metadata_size : Int)
    (device_num : Nat) (c : Client) (now : Int) :
    Option (ObjectDirectory × Client × Option PlasmaObject × Status) :=
  match d.CreateObjectInternal fuel id evict_if_full data_size metadata_size
      device_num c now with
  | none => none
  | some (d1, c1, oe, s) =>
      if s = .ok then
        match oe with
        | none => none
        | some e => some (d1, c1, some (PlasmaObject_init e), .ok)
      else some (d1, c1, none, s)

/-- The loop of `SealObjectsInternal` (source lines 418-432): each id must
name a `PLASMA_CREATED` entry (`RAY_CHECK`s); the entry becomes sealed with
its construction duration stamped, and a seal notification carrying the sizes
is collected. -/
def sealLoop : ObjectDirectory → List ObjectID → List ObjectInfoT → Int →
    Option (ObjectDirectory × List ObjectInfoT)
  | d, [], infos, _ => some (d, infos)
  | d, id :: rest, infos, now =>
      match tableFind d.object_table id with
      | none => none
      | some e =>
          if e.state = .created then
            let e1 : ObjectTableEntry :=
              { e with state := .sealed,
                       construct_duration := now - e.create_time }
            let d1 : ObjectDirectory :=
              { d with object_table := tableUpdate d.object_table id e1 }
            sealLoop d1 rest
              (infos ++ [{ object_id := id, data_size := e.data_size,
                           metadata_size := e.metadata_size,
                           is_deletion := false }]) now
          else none

/-- `ObjectDirectory::SealObjectsInternal` (source lines 414-434): transition
every entry of the batch, then emit all collected notifications as one
callback invocation. -/
def ObjectDirectory.SealObjectsInternal (d : ObjectDirectory)
    (object_ids : List ObjectID) (now : Int) : Option ObjectDirectory :=
  match sealLoop d object_ids [] now with
  | none => none
  | some (d1, infos) => some (d1.emit infos)

/-- `ObjectDirectory::CreateAndSealObject` (source lines 209-229): host-only
create, copy of the payload (payload bytes are not modelled; only the sizes
are observable), seal, and release of the creator's reference, whose result
must be 1 (`RAY_CHECK`). -/
def ObjectDirectory.CreateAndSealObject (fuel : Nat) (d : ObjectDirectory)
    (id : ObjectID) (evict_if_full : Bool) (data_size metadata_size : Int)
    (c : Client) (now : Int) :
    Option (ObjectDirectory × Client × Option PlasmaObject × Status) :=
  match d.CreateObjectInternal fuel id evict_if_full data_size metadata_size
      0 c now with
  | none => none
  | some (d1, c1, oe, s) =>
      if s = .ok then
        match oe with
        | none => none
        | some e =>
            match d1.SealObjectsInternal [id] now with
            | none => none
            | some d2 =>
                match d2.RemoveFromClientObjectIds id c1 with
                | none => none
                | some (d3, c2, r) =>
                    if r = 1 then some (d3, c2, some (PlasmaObject_init e), .ok)
                    else none
      else some (d1, c1, none, s)

/-- `ObjectDirectory::EvictObjects` (source lines 231-237): ask the policy for
victims and evict them, reporting the bytes selected. -/
def ObjectDirectory.EvictObjects (d : ObjectDirectory) (num_bytes : Int) :
    Option (ObjectDirectory × Int) :=
  let r := d.eviction_policy.ChooseObjectsToEvict num_bytes
  match (({ d with eviction_policy := r.1 }
      : ObjectDirectory).EvictObjectsInternal r.2.1) with
  | none => none
  | some d1 => some (d1, r.2.2)

/-- `ObjectDirectory::RegisterSealedObjectToClient` (source lines 330-338):
the entry must exist (`RAY_CHECK`); the descriptor is populated and the
client registered as a user. -/
def ObjectDirectory.RegisterSealedObjectToClient (d : ObjectDirectory)
    (id : ObjectID) (c : Client) :
    Option (ObjectDirectory × Client × PlasmaObject) :=
  match tableFind d.object_table id with
  | none => none
  | some e =>
      let a := d.AddToClientObjectIds id e c
      some ({ a.1 with object_table := tableUpdate a.1.object_table id a.2.1 },
            a.2.2, PlasmaObject_init e)

/-- `ObjectDirectory::MarkObjectAsReconstructed` (source lines 322-328):
populate the descriptor without touching reference counts. -/
def ObjectDirectory.MarkObjectAsReconstructed (d : ObjectDirectory)
    (id : ObjectID) : Option PlasmaObject :=
  match tableFind d.object_table id with
  | none => none
  | some e => some (PlasmaObject_init e)

/-- The per-id loop of `GetObjects` (source lines 139-166): missing ids and
`PLASMA_CREATED` entries go to `nonexistent`; sealed entries go to `sealed`;
evicted entries get memory allocated — on success the id joins `evicted_ids`,
on failure the entry's state is set back to `PLASMA_EVICTED`. -/
def getLoop (fuel : Nat) (now : Int) : ObjectDirectory → Client →
    List ObjectID → List ObjectID → List ObjectID → List ObjectID →
    Option (ObjectDirectory × Client × List ObjectID × List ObjectID × List ObjectID)
  | d, c, [], sealedAcc, evictedAcc, nonexAcc =>
      some (d, c, sealedAcc, evictedAcc, nonexAcc)
  | d, c, id :: rest, sealedAcc, evictedAcc, nonexAcc =>
      match tableFind d.object_table id with
      | none => getLoop fuel now d c rest sealedAcc evictedAcc (nonexAcc ++ [id])
      | some e =>
          match e.state with
          | .sealed =>
              getLoop fuel now d c rest (sealedAcc ++ [id]) evictedAcc nonexAcc
          | .created =>
              getLoop fuel now d c rest sealedAcc evictedAcc (nonexAcc ++ [id])
          | .evicted =>
              match d.AllocateMemory fuel id e e.ObjectSize true c false now
                  e.device_num with
              | none => none
              | some (d1, e1, c1, s) =>
                  if s = .ok then
                    let d2 : ObjectDirectory :=
                      { d1 with object_table := tableUpdate d1.object_table id e1 }
                    getLoop fuel now d2 c1 rest sealedAcc (evictedAcc ++ [id])
                      nonexAcc
                  else
                    let e2 : ObjectTableEntry := { e1 with state := .evicted }
                    let d2 : ObjectDirectory :=
                      { d1 with object_table := tableUpdate d1.object_table id e2 }
                    getLoop fuel now d2 c1 rest sealedAcc evictedAcc nonexAcc

/-- `ObjectDirectory::GetObjects` (source lines 129-195).  The `entries`
vector of the source is declared and iterated but never populated, and that
is mirrored here: the post-loop marking and rollback folds run over an empty
list.  Returns `(sealed, reconstructed, nonexistent)`. -/
def ObjectDirectory.GetObjects (fuel : Nat) (d : ObjectDirectory)
    (object_ids : List ObjectID) (c : Client) (now : Int) :
    Option (ObjectDirectory × Client × List ObjectID × List ObjectID × List ObjectID) :=
  match getLoop fuel now d c object_ids [] [] [] with
  | none => none
  | some (d1, c1, sealedObjs, evicted_ids, nonexistent) =>
      let entries : List ObjectID := []
      if evicted_ids.isEmpty then some (d1, c1, sealedObjs, [], nonexistent)
      else
        match d1.external_store with
        | some getOk =>
            if getOk then
              let d2 := entries.foldl (fun dd eid =>
                match tableFind dd.object_table eid with
                | none => dd
                | some e =>
                    let e1 : ObjectTableEntry :=
                      { e with state := .sealed,
                               construct_duration := now - e.create_time }
                    { dd with object_table := tableUpdate dd.object_table eid e1 }) d1
              some (d2, c1, sealedObjs, evicted_ids, nonexistent)
            else
              let d2 := entries.foldl (fun dd eid =>
                match tableFind dd.object_table eid with
                | none => dd
                | some e =>
                    let e1 : ObjectTableEntry := { e with state := .evicted }
                    { dd with object_table := tableUpdate dd.object_table eid e1 }) d1
              some (d2, c1, sealedObjs, [], nonexistent)
        | none =>
            let d2 := entries.foldl (fun dd eid =>
              match tableFind dd.object_table eid with
              | none => dd
              | some e =>
                  let e1 : ObjectTableEntry := { e with state := .evicted }
                  { dd with object_table := tableUpdate dd.object_table eid e1 }) d1
            some (d2, c1, sealedObjs, [], nonexistent)

/-- The first pass of `DisconnectClient` (source lines 300-315): walk the
client's ids; missing entries are skipped, sealed entries are collected for
the second pass, unsealed entries are erased on the spot. -/
def disconnectEraseLoop : ObjectDirectory → List ObjectID → List ObjectID →
    ObjectDirectory × List ObjectID
  | d, [], acc => (d, acc)
  | d, id :: rest, acc =>
      match tableFind d.object_table id with
      | none => disconnectEraseLoop d rest acc
      | some e =>
          if e.state = .sealed then disconnectEraseLoop d rest (acc ++ [id])
          else disconnectEraseLoop (d.EraseObject id) rest acc

/-- The second pass of `DisconnectClient` (source lines 317-319): release the
client's reference on every collected sealed object. -/
def removeLoop : ObjectDirectory → Client → List ObjectID →
    Option (ObjectDirectory × Client)
  | d, c, [] => some (d, c)
  | d, c, id :: rest =>
      match d.RemoveFromClientObjectIds id c with
      | none => none
      | some (d1, c1, _) => removeLoop d1 c1 rest

/-- `ObjectDirectory::DisconnectClient` (source lines 296-320). -/
def ObjectDirectory.DisconnectClient (d : ObjectDirectory) (c : Client) :
    Option (ObjectDirectory × Client) :=
  let d0 := { d with eviction_policy := d.eviction_policy.ClientDisconnected }
  let r := disconnectEraseLoop d0 c.object_ids []
  removeLoop r.1 c r.2

/-- The public operations quantified over by the reference-count invariant
claim. -/
inductive DirOp where
  | createObj (id : ObjectID) (evict_if_full : Bool)
      (data_size metadata_size : Int) (device_num : Nat)
  | createAndSeal (id : ObjectID) (evict_if_full : Bool)
      (data_size metadata_size : Int)
  | sealObjs (ids : List ObjectID)
  | deleteObj (id : ObjectID)
  | evictObjs (num_bytes : Int)
  | abortObj (id : ObjectID)
  | registerObj (id : ObjectID)
  | disconnect

/-- Dispatch one public operation against the directory and a client,
returning the resulting directory and client (crashed checks give `none`). -/
def runOp (fuel : Nat) (now : Int) (d : ObjectDirectory) (c : Client) :
    DirOp → Option (ObjectDirectory × Client)
  | .createObj id f ds ms dev =>
      (d.CreateObject fuel id f ds ms dev c now).map (fun r => (r.1, r.2.1))
  | .createAndSeal id f ds ms =>
      (d.CreateAndSealObject fuel id f ds ms c now).map (fun r => (r.1, r.2.1))
  | .sealObjs ids => (d.SealObjectsInternal ids now).map (fun d1 => (d1, c))
  | .deleteObj id => some ((d.DeleteObject id).1, c)
  | .evictObjs n => (d.EvictObjects n).map (fun r => (r.1, c))
  | .abortObj id => (d.AbortObject id c).map (fun r => (r.1, r.2.1))
  | .registerObj id =>
      (d.RegisterSealedObjectToClient id c).map (fun r => (r.1, r.2.1))
  | .disconnect => d.DisconnectClient c

/-- All reference counts recorded in a table are non-negative. -/
def RefNonneg (t : ObjectTable) : Prop :=
  ∀ p ∈ t, 0 ≤ (Prod.snd p).ref_count

/-- The table's keys are duplicate-free (the source uses a map). -/
def KeysNodup (t : ObjectTable) : Prop :=
  (t.map Prod.fst).Nodup

/-- Every id a client references names a live entry whose reference count is
at least one, and the client's id set is duplicate-free (source invariant:
`ref_count` counts the distinct referencing clients). -/
def ClientWf (t : ObjectTable) (c : Client) : Prop :=
  c.object_ids.Nodup ∧
    ∀ id ∈ c.object_ids, ∃ e, tableFind t id = some e ∧ 1 ≤ e.ref_count

/-- The seal notification record collected for an id, read from a snapshot of
the table (used to state the seal-batch property). -/
def mkSealInfo (t : ObjectTable) (id : ObjectID) : ObjectInfoT :=
  match tableFind t id with
  | some e => { object_id := id, data_size := e.data_size,
                metadata_size := e.metadata_size, is_deletion := false }
  | none => {}

/-- A sealed idle 8-byte host entry used in concrete runs. -/
def exEntrySealed : ObjectTableEntry :=
  { data_size := 8, metadata_size := 0, pointer := some 0, device_num := 0,
    fd := 1, map_size := 100, offset := 0, ref_count := 0, create_time := 5,
    construct_duration := 2, state := .sealed }

/-- Concrete run: one sealed idle entry, no external store. -/
def exDirC1 : ObjectDirectory :=
  { object_table := [(4, exEntrySealed)],
    allocator := { footprint_limit := 100, allocated := 8, next_address := 9 } }

/-- An evicted placeholder entry awaiting reconstruction. -/
def exEntryEvicted : ObjectTableEntry :=
  { data_size := 8, metadata_size := 0, pointer := none, device_num := 0,
    ref_count := 0, create_time := 5, construct_duration := -1,
    state := .evicted }

/-- Concrete run: one evicted entry, external store present, Get succeeds. -/
def exDirC2 : ObjectDirectory :=
  { object_table := [(3, exEntryEvicted)],
    allocator := { footprint_limit := 100, allocated := 0, next_address := 0 },
    external_store := some true }

/-- Concrete run: one sealed entry for the abort scenarios. -/
def exDirC3 : ObjectDirectory :=
  { object_table := [(4, exEntrySealed)],
    allocator := { footprint_limit := 100, allocated := 8, next_address := 9 } }

/-- Concrete run: one sealed idle entry for the delete scenarios. -/
def exDirC4 : ObjectDirectory :=
  { object_table := [(4, exEntrySealed)],
    allocator := { footprint_limit := 100, allocated := 8, next_address := 9 } }

/-- Concrete run: a sealed entry whose id sits in the deletion cache while a
client still references it. -/
def exEntryC5 : ObjectTableEntry :=
  { exEntrySealed with ref_count := 1 }

/-- Concrete run for the deferred-delete scenario. -/
def exDirC5 : ObjectDirectory :=
  { object_table := [(4, exEntryC5)],
    deletion_cache := [4],
    allocator := { footprint_limit := 100, allocated := 8, next_address := 9 } }

/-- Concrete run: one evicted entry, external store present, Get fails. -/
def exDirC6 : ObjectDirectory :=
  { object_table := [(3, exEntryEvicted)],
    allocator := { footprint_limit := 100, allocated := 0, next_address := 0 },
    external_store := some false }

/-- A sealed idle entry of 64 bytes backing the idle LRU of the
out-of-memory run. -/
def exEntryIdle64 : ObjectTableEntry :=
  { data_size := 64, metadata_size := 0, pointer := some 0, device_num := 0,
    fd := 1, map_size := 64, offset := 0, ref_count := 0, create_time := 0,
    construct_duration := 1, state := .sealed }

/-- Concrete run: full 64-byte footprint with a single 64-byte idle object;
a 100-byte create cannot fit even after evicting everything idle. -/
def exDirC7 : ObjectDirectory :=
  { object_table := [(7, exEntryIdle64)],
    eviction_policy := { idle_lru := [(7, 64)] },
    allocator := { footprint_limit := 64, allocated := 64, next_address := 65 } }

/-- The evicted remnant of the idle object after the failing create of the
out-of-memory run. -/
def exEntryIdle64freed : ObjectTableEntry :=
  { data_size := 64, metadata_size := 0, pointer := none, device_num := 0,
    fd := -1, map_size := 0, offset := 0, ref_count := 0, create_time := 0,
    construct_duration := 1, state := .evicted }

/-- The directory left behind by the failing create of the out-of-memory
run. -/
def exDirC7evicted : ObjectDirectory :=
  { object_table := [(7, exEntryIdle64freed)],
    eviction_policy := { idle_lru := [], in_use := [] },
    allocator := { footprint_limit := 64, allocated := 0, next_address := 65 },
    notifications := [[{ object_id := 7, is_deletion := true }]] }

/-- Two created (unsealed) entries for the seal-batch run. -/
def exEntryCreatedA : ObjectTableEntry :=
  { data_size := 10, metadata_size := 2, pointer := some 0, device_num := 0,
    fd := 1, map_size := 100, offset := 0, ref_count := 1, create_time := 3,
    construct_duration := -1, state := .created }

/-- Second created entry for the seal-batch run. -/
def exEntryCreatedB : ObjectTableEntry :=
  { data_size := 20, metadata_size := 0, pointer := some 16, device_num := 0,
    fd := 1, map_size := 100, offset := 16, ref_count := 1, create_time := 4,
    construct_duration := -1, state := .created }

/-- Concrete run for the seal batch. -/
def exDirC8 : ObjectDirectory :=
  { object_table := [(1, exEntryCreatedA), (2, exEntryCreatedB)],
    allocator := { footprint_limit := 100, allocated := 32, next_address := 37 } }

/-- Concrete run for the registration idempotence scenario. -/
def exDirC10 : ObjectDirectory :=
  { object_table := [(4, { exEntrySealed with ref_count := 1 })],
    eviction_policy := { in_use := [(4, 8)] },
    allocator := { footprint_limit := 100, allocated := 8, next_address := 9 } }

theorem mem_of_tableFind {t : ObjectTable} {id : ObjectID}
    {e : ObjectTableEntry} (h : tableFind t id = some e) : (id, e) ∈ t := by
  induction t with
  | nil => simp [tableFind] at h
  | cons p rest ih =>
      obtain ⟨k, v⟩ := p
      by_cases hk : k = id
      · subst hk
        simp [tableFind] at h
        simp [h]
      · simp [tableFind, hk] at h
        exact List.mem_cons_of_mem _ (ih h)

theorem tableFind_update_self {t : ObjectTable} {id : ObjectID}
    {e0 : ObjectTableEntry} (e : ObjectTableEntry)
    (h : tableFind t id = some e0) :
    tableFind (tableUpdate t id e) id = some e := by
  induction t with
  | nil => simp [tableFind] at h
  | cons p rest ih =>
      obtain ⟨k, v⟩ := p
      by_cases hk : k = id
      · subst hk
        simp [tableUpdate, tableFind]
      · simp [tableFind, hk] at h
        simp [tableUpdate, tableFind, hk, ih h]

theorem tableFind_update_ne {t : ObjectTable} {id id' : ObjectID}
    (e : ObjectTableEntry) (h : id' ≠ id) :
    tableFind (tableUpdate t id e) id' = tableFind t id' := by
  induction t with
  | nil => simp [tableUpdate]
  | cons p rest ih =>
      obtain ⟨k, v⟩ := p
      by_cases hk : k = id
      · have hne : ¬ id = id' := fun hh => h hh.symm
        simp [tableUpdate, tableFind, hk, hne]
      · by_cases hk' : k = id'
        · subst hk'
          simp [tableUpdate, tableFind, hk]
        · simp [tableUpdate, tableFind, hk, hk', ih]

theorem tableUpdate_of_find_none {t : ObjectTable} {id : ObjectID}
    (e : ObjectTableEntry) (h : tableFind t id = none) :
    tableUpdate t id e = t := by
  induction t with
  | nil => simp [tableUpdate]
  | cons p rest ih =>
      obtain ⟨k, v⟩ := p
      by_cases hk : k = id
      · subst hk; simp [tableFind] at h
      · simp [tableFind, hk] at h
        simp [tableUpdate, hk, ih h]

theorem tableUpdate_self {t : ObjectTable} {id : ObjectID}
    {e : ObjectTableEntry} (h : tableFind t id = some e) :
    tableUpdate t id e = t := by
  induction t with
  | nil => simp [tableUpdate]
  | cons p rest ih =>
      obtain ⟨k, v⟩ := p
      by_cases hk : k = id
      · subst hk
        simp [tableFind] at h
        simp [tableUpdate, h]
      · simp [tableFind, hk] at h
        simp [tableUpdate, hk, ih h]

theorem mem_tableUpdate {t : ObjectTable} {id : ObjectID}
    {e : ObjectTableEntry} {p : ObjectID × ObjectTableEntry}
    (h : p ∈ tableUpdate t id e) : p ∈ t ∨ p = (id, e) := by
  induction t with
  | nil => simp [tableUpdate] at h
  | cons q rest ih =>
      obtain ⟨k, v⟩ := q
      by_cases hk : k = id
      · subst hk
        simp [tableUpdate] at h
        rcases h with h | h
        · right; simp [h]
        · left; exact List.mem_cons_of_mem _ h
      · simp [tableUpdate, hk] at h
        rcases h with h | h
        · left; simp [h]
        · rcases ih h with h' | h'
          · left; exact List.mem_cons_of_mem _ h'
          · right; exact h'

theorem mem_tableErase {t : ObjectTable} {id : ObjectID}
    {p : ObjectID × ObjectTableEntry} (h : p ∈ tableErase t id) : p ∈ t := by
  induction t with
  | nil => simp [tableErase] at h
  | cons q rest ih =>
      obtain ⟨k, v⟩ := q
      by_cases hk : k = id
      · subst hk
        simp [tableErase] at h
        exact List.mem_cons_of_mem _ h
      · simp [tableErase, hk] at h
        rcases h with h | h
        · simp [h]
        · exact List.mem_cons_of_mem _ (ih h)

theorem tableFind_erase_ne {t : ObjectTable} {id id' : ObjectID}
    (h : id' ≠ id) : tableFind (tableErase t id) id' = tableFind t id' := by
  induction t with
  | nil => simp [tableErase]
  | cons q rest ih =>
      obtain ⟨k, v⟩ := q
      by_cases hk : k = id
      · have hne : ¬ id = id' := fun hh => h hh.symm
        simp [tableErase, tableFind, hk, hne]
      · by_cases hk' : k = id'
        · subst hk'
          simp [tableErase, tableFind, hk]
        · simp [tableErase, tableFind, hk, hk', ih]

theorem tableFind_eq_none_of_notmem_keys {t : ObjectTable} {id : ObjectID}
    (h : id ∉ t.map Prod.fst) : tableFind t id = none := by
  induction t with
  | nil => simp [tableFind]
  | cons q rest ih =>
      obtain ⟨k, v⟩ := q
      simp at h
      obtain ⟨h1, h2⟩ := h
      have hk : k ≠ id := fun hh => h1 hh.symm
      simp [tableFind, hk]
      exact ih (by simpa using h2)

theorem notmem_keys_of_tableFind_none {t : ObjectTable} {id : ObjectID}
    (h : tableFind t id = none) : id ∉ t.map Prod.fst := by
  induction t with
  | nil => simp
  | cons q rest ih =>
      obtain ⟨k, v⟩ := q
      by_cases hk : k = id
      · subst hk; simp [tableFind] at h
      · simp [tableFind, hk] at h
        simp [ih h]
        exact fun hh => hk hh.symm

theorem tableFind_erase_self {t : ObjectTable} {id : ObjectID}
    (h : KeysNodup t) : tableFind (tableErase t id) id = none := by
  induction t with
  | nil => simp [tableErase, tableFind]
  | cons q rest ih =>
      obtain ⟨k, v⟩ := q
      unfold KeysNodup at h
      simp [List.nodup_cons] at h
      by_cases hk : k = id
      · subst hk
        simp [tableErase]
        exact tableFind_eq_none_of_notmem_keys (by simpa using h.1)
      · simp [tableErase, tableFind, hk]
        exact ih h.2

theorem tableFind_append_sing {t : ObjectTable} {id : ObjectID}
    (e : ObjectTableEntry) (h : tableFind t id = none) :
    tableFind (t ++ [(id, e)]) id = some e := by
  induction t with
  | nil => simp [tableFind]
  | cons q rest ih =>
      obtain ⟨k, v⟩ := q
      by_cases hk : k = id
      · subst hk; simp [tableFind] at h
      · simp [tableFind, hk] at h ⊢
        exact ih h

theorem keys_tableUpdate (t : ObjectTable) (id : ObjectID)
    (e : ObjectTableEntry) :
    (tableUpdate t id e).map Prod.fst = t.map Prod.fst := by
  induction t with
  | nil => simp [tableUpdate]
  | cons q rest ih =>
      obtain ⟨k, v⟩ := q
      by_cases hk : k = id
      · subst hk; simp [tableUpdate]
      · simp [tableUpdate, hk, ih]

theorem keysNodup_tableUpdate {t : ObjectTable} (id : ObjectID)
    (e : ObjectTableEntry) (h : KeysNodup t) :
    KeysNodup (tableUpdate t id e) := by
  unfold KeysNodup
  rw [keys_tableUpdate]
  exact h

theorem tableErase_sublist (t : ObjectTable) (id : ObjectID) :
    (tableErase t id).Sublist t := by
  induction t with
  | nil => simp [tableErase]
  | cons q rest ih =>
      obtain ⟨k, v⟩ := q
      by_cases hk : k = id
      · subst hk
        simp [tableErase]
      · simp [tableErase, hk]
        exact ih

theorem keysNodup_tableErase {t : ObjectTable} (id : ObjectID)
    (h : KeysNodup t) : KeysNodup (tableErase t id) :=
  ((tableErase_sublist t id).map Prod.fst).nodup h

theorem refNonneg_of_find {t : ObjectTable} {id : ObjectID}
    {e : ObjectTableEntry} (ht : RefNonneg t) (h : tableFind t id = some e) :
    0 ≤ e.ref_count :=
  ht (id, e) (mem_of_tableFind h)

theorem refNonneg_tableUpdate {t : ObjectTable} {id : ObjectID}
    {e : ObjectTableEntry} (ht : RefNonneg t) (he : 0 ≤ e.ref_count) :
    RefNonneg (tableUpdate t id e) := by
  intro p hp
  rcases mem_tableUpdate hp with h | h
  · exact ht p h
  · subst h; exact he

theorem refNonneg_tableErase {t : ObjectTable} (id : ObjectID)
    (ht : RefNonneg t) : RefNonneg (tableErase t id) :=
  fun p hp => ht p (mem_tableErase hp)

theorem refNonneg_append {t : ObjectTable} {id : ObjectID}
    {e : ObjectTableEntry} (ht : RefNonneg t) (he : 0 ≤ e.ref_count) :
    RefNonneg (t ++ [(id, e)]) := by
  intro p hp
  rcases List.mem_append.mp hp with h | h
  · exact ht p h
  · simp at h
    subst h
    exact he

@[simp] theorem FreeObject_ref_count (e : ObjectTableEntry) :
    e.FreeObject.ref_count = e.ref_count := rfl

@[simp] theorem FreeObject_state (e : ObjectTableEntry) :
    e.FreeObject.state = .evicted := rfl

@[simp] theorem FreeObject_pointer (e : ObjectTableEntry) :
    e.FreeObject.pointer = none := rfl

@[simp] theorem Reset_ref_count (e : ObjectTableEntry) :
    e.Reset.ref_count = e.ref_count := rfl

theorem tableFind_append (t u : ObjectTable) (id : ObjectID) :
    tableFind (t ++ u) id =
      match tableFind t id with
      | some e => some e
      | none => tableFind u id := by
  induction t with
  | nil => simp [tableFind]
  | cons q rest ih =>
      obtain ⟨k, v⟩ := q
      by_cases hk : k = id
      · simp [tableFind, hk]
      · simp [tableFind, hk, ih]

theorem freeEntry_fields (d : ObjectDirectory) (id : ObjectID) :
    (d.freeEntry id).deletion_cache = d.deletion_cache ∧
    (d.freeEntry id).eviction_policy = d.eviction_policy ∧
    (d.freeEntry id).external_store = d.external_store ∧
    (d.freeEntry id).notifications = d.notifications := by
  unfold ObjectDirectory.freeEntry
  cases tableFind d.object_table id <;> simp

theorem freeEntry_keys (d : ObjectDirectory) (id : ObjectID) :
    (d.freeEntry id).object_table.map Prod.fst =
      d.object_table.map Prod.fst := by
  unfold ObjectDirectory.freeEntry
  cases tableFind d.object_table id <;> simp [keys_tableUpdate]

theorem freeEntry_refNonneg {d : ObjectDirectory} (id : ObjectID)
    (h : RefNonneg d.object_table) : RefNonneg (d.freeEntry id).object_table := by
  unfold ObjectDirectory.freeEntry
  cases hf : tableFind d.object_table id with
  | none => exact h
  | some e =>
      simp only
      exact refNonneg_tableUpdate h
        (by simpa using refNonneg_of_find h hf)

theorem freeEntry_find_ref (d : ObjectDirectory) (id id' : ObjectID) :
    (tableFind (d.freeEntry id).object_table id').map ObjectTableEntry.ref_count
      = (tableFind d.object_table id').map ObjectTableEntry.ref_count := by
  unfold ObjectDirectory.freeEntry
  cases hf : tableFind d.object_table id with
  | none => rfl
  | some e =>
      by_cases hid : id' = id
      · subst hid
        simp only
        rw [tableFind_update_self _ hf, hf]
        simp
      · simp only
        rw [tableFind_update_ne _ hid]

theorem emit_fields (d : ObjectDirectory) (infos : List ObjectInfoT) :
    (d.emit infos).object_table = d.object_table ∧
    (d.emit infos).deletion_cache = d.deletion_cache ∧
    (d.emit infos).eviction_policy = d.eviction_policy ∧
    (d.emit infos).external_store = d.external_store := by
  simp [ObjectDirectory.emit]

theorem foldl_freeEntry_props (coll : List ObjectID) :
    ∀ (d : ObjectDirectory),
      (RefNonneg d.object_table →
        RefNonneg (coll.foldl ObjectDirectory.freeEntry d).object_table) ∧
      (coll.foldl ObjectDirectory.freeEntry d).object_table.map Prod.fst =
        d.object_table.map Prod.fst ∧
      (∀ id', (tableFind (coll.foldl ObjectDirectory.freeEntry d).object_table
          id').map ObjectTableEntry.ref_count
        = (tableFind d.object_table id').map ObjectTableEntry.ref_count) ∧
      (coll.foldl ObjectDirectory.freeEntry d).deletion_cache = d.deletion_cache ∧
      (coll.foldl ObjectDirectory.freeEntry d).eviction_policy = d.eviction_policy ∧
      (coll.foldl ObjectDirectory.freeEntry d).external_store = d.external_store ∧
      (coll.foldl ObjectDirectory.freeEntry d).notifications = d.notifications := by
  induction coll with
  | nil => intro d; simp
  | cons id rest ih =>
      intro d
      have hfe := freeEntry_fields d id
      have hkeys := freeEntry_keys d id
      obtain ⟨h1, h2, h3, h4, h5, h6, h7⟩ := ih (d.freeEntry id)
      refine ⟨?_, ?_, ?_, ?_, ?_, ?_, ?_⟩
      · intro h; exact h1 (freeEntry_refNonneg id h)
      · simpa [h2] using hkeys
      · intro id'
        rw [List.foldl_cons] at *
        rw [h3 id', freeEntry_find_ref]
      · simp [h4, hfe.1]
      · simp [h5, hfe.2.1]
      · simp [h6, hfe.2.2.1]
      · simp [h7, hfe.2.2.2]

theorem evictLoop_props (ids : List ObjectID) :
    ∀ (d : ObjectDirectory) (coll : List ObjectID) (infos : List ObjectInfoT)
      (d1 : ObjectDirectory) (coll1 : List ObjectID) (infos1 : List ObjectInfoT),
      evictLoop d ids coll infos = some (d1, coll1, infos1) →
      (RefNonneg d.object_table → RefNonneg d1.object_table) ∧
      d1.object_table.map Prod.fst = d.object_table.map Prod.fst ∧
      (∀ id', (tableFind d1.object_table id').map ObjectTableEntry.ref_count
        = (tableFind d.object_table id').map ObjectTableEntry.ref_count) ∧
      d1.deletion_cache = d.deletion_cache ∧
      d1.eviction_policy = d.eviction_policy ∧
      d1.external_store = d.external_store ∧
      d1.notifications = d.notifications := by
  induction ids with
  | nil =>
      intro d coll infos d1 coll1 infos1 h
      simp [evictLoop] at h
      obtain ⟨h1, h2, h3⟩ := h
      subst h1
      exact ⟨fun hh => hh, rfl, fun _ => rfl, rfl, rfl, rfl, rfl⟩
  | cons id rest ih =>
      intro d coll infos d1 coll1 infos1 h
      simp only [evictLoop] at h
      cases hf : tableFind d.object_table id with
      | none => rw [hf] at h; exact absurd h (by simp)
      | some e =>
          rw [hf] at h
          by_cases hs : e.state = .sealed
          · by_cases hr : e.ref_count = 0
            · simp only [hs, hr, if_true] at h
              by_cases hext : d.external_store.isSome
              · rw [if_pos hext] at h
                exact ih d (coll ++ [id]) infos d1 coll1 infos1 h
              · rw [if_neg hext] at h
                obtain ⟨p1, p2, p3, p4, p5, p6, p7⟩ :=
                  ih (d.freeEntry id) coll
                    (infos ++ [{ object_id := id, is_deletion := true }])
                    d1 coll1 infos1 h
                have hfe := freeEntry_fields d id
                refine ⟨?_, ?_, ?_, ?_, ?_, ?_, ?_⟩
                · intro hh; exact p1 (freeEntry_refNonneg id hh)
                · rw [p2, freeEntry_keys]
                · intro id'; rw [p3 id', freeEntry_find_ref]
                · rw [p4, hfe.1]
                · rw [p5, hfe.2.1]
                · rw [p6, hfe.2.2.1]
                · rw [p7, hfe.2.2.2]
            · simp [hs, hr] at h
          · simp [hs] at h

theorem EvictObjectsInternal_props {d d1 : ObjectDirectory}
    {ids : List ObjectID} (h : d.EvictObjectsInternal ids = some d1) :
    (RefNonneg d.object_table → RefNonneg d1.object_table) ∧
    d1.object_table.map Prod.fst = d.object_table.map Prod.fst ∧
    (∀ id', (tableFind d1.object_table id').map ObjectTableEntry.ref_count
      = (tableFind d.object_table id').map ObjectTableEntry.ref_count) ∧
    d1.deletion_cache = d.deletion_cache ∧
    d1.eviction_policy = d.eviction_policy ∧
    d1.external_store = d.external_store := by
  unfold ObjectDirectory.EvictObjectsInternal at h
  by_cases hemp : ids.isEmpty
  · rw [if_pos hemp] at h
    simp at h
    subst h
    exact ⟨fun hh => hh, rfl, fun _ => rfl, rfl, rfl, rfl⟩
  · rw [if_neg hemp] at h
    cases hloop : evictLoop d ids [] [] with
    | none => rw [hloop] at h; exact absurd h (by simp)
    | some r =>
        obtain ⟨dm, collm, infosm⟩ := r
        rw [hloop] at h
        obtain ⟨p1, p2, p3, p4, p5, p6, p7⟩ :=
          evictLoop_props ids d [] [] dm collm infosm hloop
        by_cases hext : dm.external_store.isSome
        · simp only [hext, if_true] at h
          obtain ⟨q1, q2, q3, q4, q5, q6, q7⟩ := foldl_freeEntry_props collm dm
          have hd1 : d1 = collm.foldl ObjectDirectory.freeEntry dm := by
            simpa using h.symm
          subst hd1
          refine ⟨?_, ?_, ?_, ?_, ?_, ?_⟩
          · intro hh; exact q1 (p1 hh)
          · rw [q2, p2]
          · intro id'; rw [q3 id', p3 id']
          · rw [q4, p4]
          · rw [q5, p5]
          · rw [q6, p6]
        · simp only [hext, if_false] at h
          have hd1 : d1 = dm.emit infosm := by simpa using h.symm
          subst hd1
          have hem := emit_fields dm infosm
          refine ⟨?_, ?_, ?_, ?_, ?_, ?_⟩
          · intro hh; rw [hem.1]; exact p1 hh
          · rw [hem.1, p2]
          · intro id'; rw [hem.1, p3 id']
          · rw [hem.2.1, p4]
          · rw [hem.2.2.1, p5]
          · rw [hem.2.2.2, p6]

theorem eraseObject_fields (d : ObjectDirectory) (id : ObjectID) :
    (d.EraseObject id).deletion_cache = d.deletion_cache ∧
    (d.EraseObject id).eviction_policy = d.eviction_policy ∧
    (d.EraseObject id).external_store = d.external_store ∧
    (d.EraseObject id).notifications = d.notifications := by
  unfold ObjectDirectory.EraseObject
  cases tableFind d.object_table id <;> simp

theorem eraseObject_refNonneg {d : ObjectDirectory} (id : ObjectID)
    (h : RefNonneg d.object_table) :
    RefNonneg (d.EraseObject id).object_table := by
  unfold ObjectDirectory.EraseObject
  cases tableFind d.object_table id with
  | none => exact h
  | some e => exact refNonneg_tableErase id h

theorem eraseObject_keysNodup {d : ObjectDirectory} (id : ObjectID)
    (h : KeysNodup d.object_table) :
    KeysNodup (d.EraseObject id).object_table := by
  unfold ObjectDirectory.EraseObject
  cases tableFind d.object_table id with
  | none => exact h
  | some e => exact keysNodup_tableErase id h

theorem eraseObject_find_ne (d : ObjectDirectory) {id id' : ObjectID}
    (h : id' ≠ id) :
    tableFind (d.EraseObject id).object_table id' =
      tableFind d.object_table id' := by
  unfold ObjectDirectory.EraseObject
  cases tableFind d.object_table id with
  | none => rfl
  | some e => exact tableFind_erase_ne h

theorem eraseObject_find_self {d : ObjectDirectory} (id : ObjectID)
    (h : KeysNodup d.object_table) :
    tableFind (d.EraseObject id).object_table id = none := by
  unfold ObjectDirectory.EraseObject
  cases hf : tableFind d.object_table id with
  | none => exact hf
  | some e => exact tableFind_erase_self h

@[simp] theorem Reset_data_size (e : ObjectTableEntry) :
    e.Reset.data_size = e.data_size := rfl

@[simp] theorem Reset_metadata_size (e : ObjectTableEntry) :
    e.Reset.metadata_size = e.metadata_size := rfl

@[simp] theorem Reset_state (e : ObjectTableEntry) :
    e.Reset.state = e.state := rfl

theorem tableFind_append_sing_ne {t : ObjectTable} {id id' : ObjectID}
    (e : ObjectTableEntry) (h : id' ≠ id) :
    tableFind (t ++ [(id, e)]) id' = tableFind t id' := by
  rw [tableFind_append]
  have hne : ¬ id = id' := fun hh => h hh.symm
  cases tableFind t id' <;> simp [tableFind, hne]

theorem addToClient_mem {d : ObjectDirectory} {id : ObjectID}
    {e : ObjectTableEntry} {c : Client} (h : id ∈ c.object_ids) :
    d.AddToClientObjectIds id e c = (d, e, c) := by
  simp [ObjectDirectory.AddToClientObjectIds, h]

theorem addToClient_notmem {d : ObjectDirectory} {id : ObjectID}
    {e : ObjectTableEntry} {c : Client} (h : id ∉ c.object_ids) :
    (d.AddToClientObjectIds id e c).2.1 =
      { e with ref_count := e.ref_count + 1 } ∧
    (d.AddToClientObjectIds id e c).2.2 =
      Client.mk (c.object_ids ++ [id]) ∧
    (d.AddToClientObjectIds id e c).1.object_table = d.object_table ∧
    (d.AddToClientObjectIds id e c).1.deletion_cache = d.deletion_cache ∧
    (d.AddToClientObjectIds id e c).1.external_store = d.external_store := by
  by_cases hr : e.ref_count = 0 <;>
    simp [ObjectDirectory.AddToClientObjectIds, h, hr]

theorem addToClient_table {d : ObjectDirectory} (id : ObjectID)
    (e : ObjectTableEntry) (c : Client) :
    (d.AddToClientObjectIds id e c).1.object_table = d.object_table ∧
    (d.AddToClientObjectIds id e c).1.deletion_cache = d.deletion_cache ∧
    (d.AddToClientObjectIds id e c).1.external_store = d.external_store := by
  by_cases h : id ∈ c.object_ids
  · simp [addToClient_mem h]
  · exact ⟨(addToClient_notmem h).2.2.1, (addToClient_notmem h).2.2.2.1,
      (addToClient_notmem h).2.2.2.2⟩


theorem entryAlloc_host (e : ObjectTableEntry) (a : PlasmaAllocator)
    (size now : Int) :
    e.AllocateMemory a 0 size now =
      match a.Memalign size with
      | none => (e.Reset, a, .objectStoreFull)
      | some (a', addr) =>
          ({ e with pointer := some addr, fd := 1, map_size := a'.footprint_limit,
                    offset := Int.ofNat addr, state := .created, device_num := 0,
                    create_time := now, construct_duration := -1 }, a', .ok) := by
  simp [ObjectTableEntry.AllocateMemory]

@[simp] theorem addToClient_fst_table (d : ObjectDirectory) (id : ObjectID)
    (e : ObjectTableEntry) (c : Client) :
    (d.AddToClientObjectIds id e c).1.object_table = d.object_table := by
  unfold ObjectDirectory.AddToClientObjectIds
  by_cases h : id ∈ c.object_ids <;> by_cases hr : e.ref_count = 0 <;>
    simp [h, hr]

@[simp] theorem addToClient_fst_cache (d : ObjectDirectory) (id : ObjectID)
    (e : ObjectTableEntry) (c : Client) :
    (d.AddToClientObjectIds id e c).1.deletion_cache = d.deletion_cache := by
  unfold ObjectDirectory.AddToClientObjectIds
  by_cases h : id ∈ c.object_ids <;> by_cases hr : e.ref_count = 0 <;>
    simp [h, hr]

@[simp] theorem addToClient_fst_ext (d : ObjectDirectory) (id : ObjectID)
    (e : ObjectTableEntry) (c : Client) :
    (d.AddToClientObjectIds id e c).1.external_store = d.external_store := by
  unfold ObjectDirectory.AddToClientObjectIds
  by_cases h : id ∈ c.object_ids <;> by_cases hr : e.ref_count = 0 <;>
    simp [h, hr]

@[simp] theorem addToClient_fst_notifications (d : ObjectDirectory)
    (id : ObjectID) (e : ObjectTableEntry) (c : Client) :
    (d.AddToClientObjectIds id e c).1.notifications = d.notifications := by
  unfold ObjectDirectory.AddToClientObjectIds
  by_cases h : id ∈ c.object_ids <;> by_cases hr : e.ref_count = 0 <;>
    simp [h, hr]

theorem allocLoop_props : ∀ (fuel : Nat) (d : ObjectDirectory) (id : ObjectID)
    (e : ObjectTableEntry) (size : Int) (f : Bool) (c : Client) (ic : Bool)
    (now : Int) (d1 : ObjectDirectory) (e1 : ObjectTableEntry) (c1 : Client)
    (s : Status),
    allocLoop fuel d id e size f c ic now = some (d1, e1, c1, s) →
    (RefNonneg d.object_table → RefNonneg d1.object_table) ∧
    d1.object_table.map Prod.fst = d.object_table.map Prod.fst ∧
    (∀ id', (tableFind d1.object_table id').map ObjectTableEntry.ref_count
      = (tableFind d.object_table id').map ObjectTableEntry.ref_count) ∧
    d1.deletion_cache = d.deletion_cache ∧
    d1.external_store = d.external_store ∧
    e1.data_size = e.data_size ∧ e1.metadata_size = e.metadata_size ∧
    (s ≠ .ok → e1.ref_count = e.ref_count ∧ c1 = c) ∧
    (s = .ok → e1.state = .created ∧
      ((id ∈ c.object_ids ∧ e1.ref_count = e.ref_count ∧ c1 = c) ∨
       (id ∉ c.object_ids ∧ e1.ref_count = e.ref_count + 1 ∧
         c1 = Client.mk (c.object_ids ++ [id])))) := by
  intro fuel
  induction fuel with
  | zero => intro d id e size f c ic now d1 e1 c1 s h; simp [allocLoop] at h
  | succ fuel ih =>
      intro d id e size f c ic now d1 e1 c1 s h
      rw [allocLoop, entryAlloc_host] at h
      cases hma : d.allocator.Memalign size with
      | some pr =>
          obtain ⟨a', addr⟩ := pr
          rw [hma] at h
          simp only [] at h
          by_cases hmem : id ∈ c.object_ids
          · rw [addToClient_mem hmem] at h
            simp at h
            obtain ⟨hd1, he1, hc1, hs⟩ := h
            subst hd1; subst he1; subst hc1; subst hs
            exact ⟨fun hh => hh, rfl, fun _ => rfl, rfl, rfl, rfl, rfl,
              fun hne => absurd rfl hne,
              fun _ => ⟨rfl, Or.inl ⟨hmem, rfl, rfl⟩⟩⟩
          · simp at h
            obtain ⟨hd1, he1, hc1, hs⟩ := h
            subst hd1; subst he1; subst hc1; subst hs
            refine ⟨fun hh => by simpa using hh, by simp, fun id' => by simp,
              by simp, by simp, ?_, ?_, fun hne => absurd rfl hne,
              fun _ => ⟨?_, Or.inr ⟨hmem, ?_, ?_⟩⟩⟩
            · simp [ObjectDirectory.AddToClientObjectIds, hmem]
            · simp [ObjectDirectory.AddToClientObjectIds, hmem]
            · simp [ObjectDirectory.AddToClientObjectIds, hmem]
            · simp [ObjectDirectory.AddToClientObjectIds, hmem]
            · simp [ObjectDirectory.AddToClientObjectIds, hmem]
      | none =>
          rw [hma] at h
          simp only [] at h
          by_cases hf : f
          · simp only [hf] at h
            simp at h
            split at h
            · simp at h
            · rename_i d2 heq
              split at h
              · rename_i hq22
                obtain ⟨p1, p2, p3, p4, p5, p6, p7, p8, p9⟩ :=
                  ih _ _ _ _ _ _ _ _ _ _ _ _ h
                obtain ⟨q1, q2, q3, q4, q5, q6⟩ := EvictObjectsInternal_props heq
                refine ⟨?_, ?_, ?_, ?_, ?_, ?_, ?_, ?_, ?_⟩
                · intro hh
                  apply p1
                  apply q1
                  simpa using hh
                · simp [p2, q2]
                · intro id'; simp [p3 id', q3 id']
                · simp [p4, q4]
                · simp [p5, q6]
                · simpa using p6
                · simpa using p7
                · intro hne
                  obtain ⟨r1, r2⟩ := p8 hne
                  exact ⟨by simpa using r1, r2⟩
                · intro hs
                  obtain ⟨r1, r2⟩ := p9 hs
                  refine ⟨r1, ?_⟩
                  rcases r2 with ⟨m1, m2, m3⟩ | ⟨m1, m2, m3⟩
                  · exact Or.inl ⟨m1, by simpa using m2, m3⟩
                  · exact Or.inr ⟨m1, by simpa using m2, m3⟩
              · rename_i hq22
                simp at h
                obtain ⟨hd1, he1, hc1, hs⟩ := h
                subst hd1; subst he1; subst hc1; subst hs
                obtain ⟨q1, q2, q3, q4, q5, q6⟩ := EvictObjectsInternal_props heq
                refine ⟨?_, ?_, ?_, ?_, ?_, by simp, by simp,
                  fun _ => ⟨by simp, rfl⟩, fun hs => by cases hs⟩
                · intro hh; apply q1; simpa using hh
                · simp [q2]
                · intro id'; simp [q3 id']
                · simp [q4]
                · simp [q6]
          · simp only [hf] at h
            simp at h
            obtain ⟨hd1, he1, hc1, hs⟩ := h
            subst hd1; subst he1; subst hc1
            refine ⟨fun hh => by simpa using hh, by simp, fun id' => by simp,
              by simp, by simp, by simp, by simp,
              fun _ => ⟨by simp, rfl⟩, fun hs2 => ?_⟩
            rw [← hs] at hs2
            cases hs2

theorem AllocateMemory_props {fuel : Nat} {d : ObjectDirectory} {id : ObjectID}
    {e : ObjectTableEntry} {size : Int} {f : Bool} {c : Client} {ic : Bool}
    {now : Int} {dev : Nat} {d1 : ObjectDirectory} {e1 : ObjectTableEntry}
    {c1 : Client} {s : Status}
    (h : d.AllocateMemory fuel id e size f c ic now dev = some (d1, e1, c1, s)) :
    (RefNonneg d.object_table → RefNonneg d1.object_table) ∧
    d1.object_table.map Prod.fst = d.object_table.map Prod.fst ∧
    (∀ id', (tableFind d1.object_table id').map ObjectTableEntry.ref_count
      = (tableFind d.object_table id').map ObjectTableEntry.ref_count) ∧
    d1.deletion_cache = d.deletion_cache ∧
    d1.external_store = d.external_store ∧
    e1.data_size = e.data_size ∧ e1.metadata_size = e.metadata_size ∧
    (s ≠ .ok → e1.ref_count = e.ref_count ∧ c1 = c) ∧
    (s = .ok → dev = 0) ∧
    (s = .ok → dev = 0 → e1.state = .created ∧
      ((id ∈ c.object_ids ∧ e1.ref_count = e.ref_count ∧ c1 = c) ∨
       (id ∉ c.object_ids ∧ e1.ref_count = e.ref_count + 1 ∧
         c1 = Client.mk (c.object_ids ++ [id])))) := by
  unfold ObjectDirectory.AllocateMemory at h
  by_cases hp : e.pointer.isSome
  · simp [hp] at h
  · rw [if_neg hp] at h
    by_cases hdev : dev ≠ 0
    · rw [if_pos hdev] at h
      unfold ObjectTableEntry.AllocateMemory at h
      rw [if_neg hdev] at h
      simp at h
      obtain ⟨hd1, he1, hc1, hs⟩ := h
      subst hd1; subst he1; subst hc1; subst hs
      exact ⟨fun hh => hh, rfl, fun _ => rfl, rfl, rfl, rfl, rfl,
        fun _ => ⟨rfl, rfl⟩, fun hs => absurd hs (by decide),
        fun _ hd0 => absurd hd0 hdev⟩
    · rw [if_neg hdev] at h
      push_neg at hdev
      by_cases hef : f
      · rw [if_pos hef] at h
        have hz : d.EvictObjectsInternal [] = some d := by
          simp [ObjectDirectory.EvictObjectsInternal]
        rw [hz] at h
        obtain ⟨p1, p2, p3, p4, p5, p6, p7, p8, p9⟩ :=
          allocLoop_props _ _ _ _ _ _ _ _ _ _ _ _ _ h
        exact ⟨p1, p2, p3, p4, p5, p6, p7, p8, fun _ => hdev,
          fun hs _ => p9 hs⟩
      · rw [if_neg hef] at h
        obtain ⟨p1, p2, p3, p4, p5, p6, p7, p8, p9⟩ :=
          allocLoop_props _ _ _ _ _ _ _ _ _ _ _ _ _ h
        exact ⟨p1, p2, p3, p4, p5, p6, p7, p8, fun _ => hdev,
          fun hs _ => p9 hs⟩

theorem createInternal_refNonneg {fuel : Nat} {d : ObjectDirectory}
    {id : ObjectID} {f : Bool} {ds ms : Int} {dev : Nat} {c : Client}
    {now : Int} {d1 : ObjectDirectory} {c1 : Client}
    {oe : Option ObjectTableEntry} {s : Status}
    (h : d.CreateObjectInternal fuel id f ds ms dev c now = some (d1, c1, oe, s))
    (hr : RefNonneg d.object_table) : RefNonneg d1.object_table := by
  unfold ObjectDirectory.CreateObjectInternal at h
  by_cases hex : (tableFind d.object_table id).isSome
  · rw [if_pos hex] at h
    simp at h
    obtain ⟨hd1, _, _, _⟩ := h
    subst hd1; exact hr
  · rw [if_neg hex] at h
    by_cases htot : ds + ms ≤ 0
    · simp [htot] at h
    · rw [if_neg htot] at h
      cases ha : d.AllocateMemory fuel id {} (ds + ms) f c true now dev with
      | none => rw [ha] at h; simp at h
      | some r =>
          obtain ⟨dA, eA, cA, sA⟩ := r
          rw [ha] at h
          obtain ⟨p1, p2, p3, p4, p5, p6, p7, p8, p8a, p9⟩ := AllocateMemory_props ha
          by_cases hok : sA = .ok
          · simp only [hok, if_pos rfl] at h
            simp at h
            obtain ⟨hd1, _, _, _⟩ := h
            subst hd1
            apply refNonneg_append (p1 hr)
            have hor : eA.ref_count = ({} : ObjectTableEntry).ref_count ∨
                eA.ref_count = ({} : ObjectTableEntry).ref_count + 1 := by
              rcases (p9 hok (p8a hok)).2 with ⟨_, hh, _⟩ | ⟨_, hh, _⟩
              · exact Or.inl hh
              · exact Or.inr hh
            rcases hor with hh | hh <;> simp [hh]
          · simp only [hok, if_neg hok] at h
            simp at h
            obtain ⟨hd1, _, _, _⟩ := h
            subst hd1
            exact p1 hr

theorem createInternal_ok_props {fuel : Nat} {d : ObjectDirectory}
    {id : ObjectID} {f : Bool} {ds ms : Int} {c : Client} {now : Int}
    {d1 : ObjectDirectory} {c1 : Client} {oe : Option ObjectTableEntry}
    {s : Status}
    (h : d.CreateObjectInternal fuel id f ds ms 0 c now = some (d1, c1, oe, s))
    (hs : s = .ok) (hnc : id ∉ c.object_ids) :
    ∃ e2, oe = some e2 ∧ e2.ref_count = 1 ∧ e2.state = .created ∧
      tableFind d1.object_table id = some e2 ∧
      c1 = Client.mk (c.object_ids ++ [id]) ∧
      (∀ id', id' ≠ id →
        (tableFind d1.object_table id').map ObjectTableEntry.ref_count
          = (tableFind d.object_table id').map ObjectTableEntry.ref_count) ∧
      d1.deletion_cache = d.deletion_cache ∧
      d1.external_store = d.external_store ∧
      (RefNonneg d.object_table → RefNonneg d1.object_table) := by
  subst hs
  unfold ObjectDirectory.CreateObjectInternal at h
  by_cases hex : (tableFind d.object_table id).isSome
  · simp [hex] at h
  · rw [if_neg hex] at h
    have hfindnone : tableFind d.object_table id = none := by
      cases hx : tableFind d.object_table id with
      | none => rfl
      | some _ => rw [hx] at hex; simp at hex
    by_cases htot : ds + ms ≤ 0
    · simp [htot] at h
    · rw [if_neg htot] at h
      cases ha : d.AllocateMemory fuel id {} (ds + ms) f c true now 0 with
      | none => rw [ha] at h; simp at h
      | some r =>
          obtain ⟨dA, eA, cA, sA⟩ := r
          rw [ha] at h
          obtain ⟨p1, p2, p3, p4, p5, p6, p7, p8, p8a, p9⟩ :=
            AllocateMemory_props ha
          by_cases hok : sA = .ok
          · subst hok
            simp at h
            obtain ⟨hd1, hc1, hoe⟩ := h
            subst hd1; subst hc1; subst hoe
            obtain ⟨hstA, hdisj⟩ := p9 rfl rfl
            rcases hdisj with ⟨hm, _, _⟩ | ⟨_, hrefA, hcA⟩
            · exact absurd hm hnc
            · have hrefA1 : eA.ref_count = 1 := by simpa using hrefA
              have hAnone : tableFind dA.object_table id = none := by
                have := p3 id
                rw [hfindnone] at this
                cases hx : tableFind dA.object_table id with
                | none => rfl
                | some ee => rw [hx] at this; simp at this
              refine ⟨_, rfl, by simpa using hrefA1, by simpa using hstA,
                ?_, hcA, ?_, p4, p5, ?_⟩
              · exact tableFind_append_sing _ hAnone
              · intro id' hne
                rw [tableFind_append_sing_ne _ hne]
                exact p3 id'
              · intro hr
                apply refNonneg_append (p1 hr)
                simp [hrefA1]
          · simp [hok] at h

theorem tableUpdate_find_ref {t : ObjectTable} {id : ObjectID}
    {e enew : ObjectTableEntry} (hf : tableFind t id = some e)
    (hr : enew.ref_count = e.ref_count) :
    ∀ id', (tableFind (tableUpdate t id enew) id').map ObjectTableEntry.ref_count
      = (tableFind t id').map ObjectTableEntry.ref_count := by
  intro id'
  by_cases hid : id' = id
  · subst hid
    rw [tableFind_update_self _ hf, hf]
    simp [hr]
  · rw [tableFind_update_ne _ hid]

theorem sealLoop_preserve (ids : List ObjectID) :
    ∀ (d : ObjectDirectory) (infos : List ObjectInfoT) (now : Int)
      (d1 : ObjectDirectory) (infos1 : List ObjectInfoT),
      sealLoop d ids infos now = some (d1, infos1) →
      (RefNonneg d.object_table → RefNonneg d1.object_table) ∧
      d1.object_table.map Prod.fst = d.object_table.map Prod.fst ∧
      (∀ id', (tableFind d1.object_table id').map ObjectTableEntry.ref_count
        = (tableFind d.object_table id').map ObjectTableEntry.ref_count) ∧
      d1.deletion_cache = d.deletion_cache ∧
      d1.eviction_policy = d.eviction_policy ∧
      d1.external_store = d.external_store ∧
      d1.notifications = d.notifications := by
  induction ids with
  | nil =>
      intro d infos now d1 infos1 h
      simp [sealLoop] at h
      obtain ⟨h1, _⟩ := h
      subst h1
      exact ⟨fun hh => hh, rfl, fun _ => rfl, rfl, rfl, rfl, rfl⟩
  | cons id rest ih =>
      intro d infos now d1 infos1 h
      rw [sealLoop] at h
      cases hf : tableFind d.object_table id with
      | none => rw [hf] at h; simp at h
      | some e =>
          rw [hf] at h
          by_cases hst : e.state = .created
          · simp only [hst, if_true, if_pos rfl] at h
            obtain ⟨q1, q2, q3, q4, q5, q6, q7⟩ := ih _ _ _ _ _ h
            refine ⟨?_, ?_, ?_, by simpa using q4, by simpa using q5,
              by simpa using q6, by simpa using q7⟩
            · intro hr
              apply q1
              simp only []
              apply refNonneg_tableUpdate hr
              simpa using refNonneg_of_find hr hf
            · rw [q2]; simp [keys_tableUpdate]
            · intro id'
              rw [q3 id']
              simp only []
              exact tableUpdate_find_ref hf (by simp) id'
          · simp [hst] at h

theorem sealLoop_spec (ids : List ObjectID) :
    ∀ (d : ObjectDirectory) (infos : List ObjectInfoT) (now : Int),
      ids.Nodup →
      (∀ id ∈ ids, ∃ e, tableFind d.object_table id = some e ∧
        e.state = .created) →
      ∃ d1, sealLoop d ids infos now =
          some (d1, infos ++ ids.map (mkSealInfo d.object_table)) ∧
        (∀ id ∈ ids, ∀ e, tableFind d.object_table id = some e →
          tableFind d1.object_table id =
            some { e with state := .sealed,
                          construct_duration := now - e.create_time }) ∧
        (∀ id', id' ∉ ids →
          tableFind d1.object_table id' = tableFind d.object_table id') ∧
        d1.notifications = d.notifications ∧
        d1.deletion_cache = d.deletion_cache ∧
        d1.eviction_policy = d.eviction_policy ∧
        d1.external_store = d.external_store := by
  induction ids with
  | nil =>
      intro d infos now _ _
      exact ⟨d, by simp [sealLoop], by simp, fun id' _ => rfl, rfl, rfl, rfl,
        rfl⟩
  | cons id rest ih =>
      intro d infos now hnd hpre
      obtain ⟨e, hfe, hst⟩ := hpre id (by simp)
      have hnd' : rest.Nodup := (List.nodup_cons.mp hnd).2
      have hid : id ∉ rest := (List.nodup_cons.mp hnd).1
      have hpre' : ∀ i ∈ rest,
          ∃ e', tableFind (tableUpdate d.object_table id
              { e with state := .sealed,
                       construct_duration := now - e.create_time }) i =
            some e' ∧ e'.state = .created := by
        intro i hi
        obtain ⟨e', hf', hs'⟩ := hpre i (by simp [hi])
        have hne : i ≠ id := fun hh => hid (hh ▸ hi)
        exact ⟨e', by rw [tableFind_update_ne _ hne]; exact hf', hs'⟩
      obtain ⟨d1, hrun, hupd, hother, hnotif, hcache, hpol, hext⟩ :=
        ih { d with object_table := (tableUpdate d.object_table id
              { e with state := .sealed,
                       construct_duration := now - e.create_time }) }
          (infos ++ [{ object_id := id, data_size := e.data_size,
                       metadata_size := e.metadata_size,
                       is_deletion := false }]) now hnd' hpre'
      have hmapeq : rest.map (mkSealInfo (tableUpdate d.object_table id
            { e with state := .sealed,
                     construct_duration := now - e.create_time }))
          = rest.map (mkSealInfo d.object_table) := by
        apply List.map_congr_left
        intro i hi
        have hne : i ≠ id := fun hh => hid (hh ▸ hi)
        unfold mkSealInfo
        rw [tableFind_update_ne _ hne]
      refine ⟨d1, ?_, ?_, ?_, hnotif, hcache, hpol, hext⟩
      · rw [sealLoop, hfe]
        simp only [hst, if_true, if_pos rfl]
        rw [hrun, hmapeq]
        simp [mkSealInfo, hfe]
      · intro i hi ei hfi
        rcases List.mem_cons.mp hi with hii | hii
        · rw [hii] at hfi ⊢
          rw [hfe] at hfi
          obtain rfl : e = ei := by injection hfi
          rw [hother id hid]
          exact tableFind_update_self _ hfe
        · have hne : i ≠ id := fun hh => hid (hh ▸ hii)
          apply hupd i hii
          rw [tableFind_update_ne _ hne]
          exact hfi
      · intro id' hnotin
        have h1 : id' ≠ id := fun hh => hnotin (by simp [hh])
        have h2 : id' ∉ rest := fun hh => hnotin (by simp [hh])
        rw [hother id' h2]
        exact tableFind_update_ne _ h1

theorem find_ref_transfer {t1 t2 : ObjectTable} {i : ObjectID}
    (hpt : (tableFind t1 i).map ObjectTableEntry.ref_count
      = (tableFind t2 i).map ObjectTableEntry.ref_count)
    {e : ObjectTableEntry} (hf : tableFind t1 i = some e) :
    ∃ e0, tableFind t2 i = some e0 ∧ e0.ref_count = e.ref_count := by
  rw [hf] at hpt
  cases hx : tableFind t2 i with
  | none => rw [hx] at hpt; simp at hpt
  | some e0 =>
      rw [hx] at hpt
      simp at hpt
      exact ⟨e0, rfl, hpt.symm⟩

theorem removeFromClient_preserve {d : ObjectDirectory} {id : ObjectID}
    {c : Client} {d1 : ObjectDirectory} {c1 : Client} {r : Int}
    (h : d.RemoveFromClientObjectIds id c = some (d1, c1, r))
    (hr : RefNonneg d.object_table)
    (hnd : c.object_ids.Nodup)
    (hinv : ∀ i ∈ c.object_ids, ∀ e, tableFind d.object_table i = some e →
      1 ≤ e.ref_count) :
    RefNonneg d1.object_table ∧ c1.object_ids.Nodup ∧
    (∀ i ∈ c1.object_ids, ∀ e, tableFind d1.object_table i = some e →
      1 ≤ e.ref_count) := by
  unfold ObjectDirectory.RemoveFromClientObjectIds at h
  cases hfe : tableFind d.object_table id with
  | none => rw [hfe] at h; simp at h
  | some e =>
      rw [hfe] at h
      by_cases hmem : id ∈ c.object_ids
      · simp only [hmem, if_true] at h
        generalize he1 :
          ({ e with ref_count := e.ref_count - 1 } : ObjectTableEntry) = e1 at h
        have he1ref : e1.ref_count = e.ref_count - 1 := by rw [← he1]
        have href : 1 ≤ e.ref_count := hinv id hmem e hfe
        have hmerase : ∀ i ∈ c.object_ids.erase id,
            i ∈ c.object_ids ∧ i ≠ id := by
          intro i hi
          have hmi := (List.Nodup.mem_erase_iff hnd).mp hi
          exact ⟨hmi.2, hmi.1⟩
        have hnderase : (c.object_ids.erase id).Nodup := hnd.erase id
        have hup : RefNonneg (tableUpdate d.object_table id e1) := by
          apply refNonneg_tableUpdate hr
          omega
        have hinv1 : ∀ i ∈ c.object_ids.erase id, ∀ e',
            tableFind (tableUpdate d.object_table id e1) i = some e' →
            1 ≤ e'.ref_count := by
          intro i hi e' hf'
          obtain ⟨hic, hine⟩ := hmerase i hi
          rw [tableFind_update_ne _ hine] at hf'
          exact hinv i hic e' hf'
        by_cases hz : e.ref_count - 1 = 0
        · by_cases hcache : id ∈ d.deletion_cache
          · simp [hz, hcache] at h
            split at h
            · simp at h
            · rename_i d3 heq
              simp at h
              obtain ⟨hd3, hc1, _⟩ := h
              subst hd3; subst hc1
              obtain ⟨q1, q2, q3, q4, q5, q6⟩ := EvictObjectsInternal_props heq
              refine ⟨?_, hnderase, ?_⟩
              · apply q1
                simpa using hup
              · intro i hi e' hf'
                obtain ⟨e0, hf0, hr0⟩ := find_ref_transfer (q3 i) hf'
                rw [← hr0]
                apply hinv1 i hi e0
                simpa using hf0
          · simp [hz, hcache] at h
            obtain ⟨hd1, hc1, _⟩ := h
            subst hd1; subst hc1
            exact ⟨by simpa using hup, hnderase, fun i hi e' hf' =>
              hinv1 i hi e' (by simpa using hf')⟩
        · simp [hz] at h
          obtain ⟨hd1, hc1, _⟩ := h
          subst hd1; subst hc1
          exact ⟨by simpa using hup, hnderase, fun i hi e' hf' =>
            hinv1 i hi e' (by simpa using hf')⟩
      · simp only [hmem, if_false] at h
        simp at h
        obtain ⟨hd1, hc1, _⟩ := h
        subst hd1; subst hc1
        exact ⟨hr, hnd, hinv⟩

theorem removeLoop_preserve (ids : List ObjectID) :
    ∀ (d : ObjectDirectory) (c : Client) (d1 : ObjectDirectory) (c1 : Client),
      removeLoop d c ids = some (d1, c1) →
      RefNonneg d.object_table → c.object_ids.Nodup →
      (∀ i ∈ c.object_ids, ∀ e, tableFind d.object_table i = some e →
        1 ≤ e.ref_count) →
      RefNonneg d1.object_table := by
  induction ids with
  | nil =>
      intro d c d1 c1 h hr _ _
      simp [removeLoop] at h
      rw [← h.1]
      exact hr
  | cons id rest ih =>
      intro d c d1 c1 h hr hnd hinv
      rw [removeLoop] at h
      cases hrm : d.RemoveFromClientObjectIds id c with
      | none => rw [hrm] at h; simp at h
      | some t =>
          obtain ⟨dm, cm, rm⟩ := t
          rw [hrm] at h
          obtain ⟨p1, p2, p3⟩ := removeFromClient_preserve hrm hr hnd hinv
          exact ih dm cm d1 c1 h p1 p2 p3

theorem disconnectEraseLoop_preserve (cIds : List ObjectID)
    (todo : List ObjectID) :
    ∀ (d : ObjectDirectory) (acc : List ObjectID),
      RefNonneg d.object_table → KeysNodup d.object_table →
      (∀ i ∈ cIds, ∀ e, tableFind d.object_table i = some e →
        1 ≤ e.ref_count) →
      RefNonneg (disconnectEraseLoop d todo acc).1.object_table ∧
      KeysNodup (disconnectEraseLoop d todo acc).1.object_table ∧
      (∀ i ∈ cIds, ∀ e,
        tableFind (disconnectEraseLoop d todo acc).1.object_table i = some e →
        1 ≤ e.ref_count) := by
  induction todo with
  | nil => intro d acc hr hk hinv; exact ⟨hr, hk, hinv⟩
  | cons id rest ih =>
      intro d acc hr hk hinv
      rw [disconnectEraseLoop]
      cases hf : tableFind d.object_table id with
      | none => exact ih d acc hr hk hinv
      | some e =>
          by_cases hst : e.state = .sealed
          · simp only [hst, if_true, if_pos rfl]
            exact ih d (acc ++ [id]) hr hk hinv
          · simp only [hst, if_false]
            apply ih
            · exact eraseObject_refNonneg id hr
            · exact eraseObject_keysNodup id hk
            · intro i hi e' hf'
              by_cases hii : i = id
              · rw [hii] at hf'
                rw [eraseObject_find_self id hk] at hf'
                cases hf'
              · rw [eraseObject_find_ne d hii] at hf'
                exact hinv i hi e' hf'

theorem clientWf_inv {t : ObjectTable} {c : Client} (h : ClientWf t c) :
    ∀ i ∈ c.object_ids, ∀ e, tableFind t i = some e → 1 ≤ e.ref_count := by
  intro i hi e hf
  obtain ⟨e0, hf0, hr0⟩ := h.2 i hi
  rw [hf0] at hf
  injection hf with hh
  rw [← hh]
  exact hr0

theorem sealInternal_refNonneg {d : ObjectDirectory} {ids : List ObjectID}
    {now : Int} {d1 : ObjectDirectory}
    (h : d.SealObjectsInternal ids now = some d1)
    (hr : RefNonneg d.object_table) : RefNonneg d1.object_table := by
  unfold ObjectDirectory.SealObjectsInternal at h
  cases hsl : sealLoop d ids [] now with
  | none => rw [hsl] at h; simp at h
  | some t =>
      obtain ⟨dm, infos⟩ := t
      rw [hsl] at h
      simp at h
      obtain ⟨p1, _⟩ := sealLoop_preserve ids d [] now dm infos hsl
      rw [← h]
      have hrm := p1 hr
      simpa [ObjectDirectory.emit] using hrm

theorem deleteObject_refNonneg (d : ObjectDirectory) (id : ObjectID)
    (hr : RefNonneg d.object_table) :
    RefNonneg (d.DeleteObject id).1.object_table := by
  unfold ObjectDirectory.DeleteObject
  cases hf : tableFind d.object_table id with
  | none => exact hr
  | some e =>
      simp only []
      by_cases hst : e.state ≠ .sealed
      · rw [if_pos hst]
        exact hr
      · rw [if_neg hst]
        by_cases hrc : e.ref_count ≠ 0
        · rw [if_pos hrc]
          exact hr
        · rw [if_neg hrc]
          simp only [ObjectDirectory.emit]
          exact eraseObject_refNonneg id hr

theorem evictObjects_refNonneg {d : ObjectDirectory} {n : Int}
    {d1 : ObjectDirectory} {b : Int} (h : d.EvictObjects n = some (d1, b))
    (hr : RefNonneg d.object_table) : RefNonneg d1.object_table := by
  unfold ObjectDirectory.EvictObjects at h
  simp only [] at h
  split at h
  · simp at h
  · rename_i dm heq
    simp at h
    obtain ⟨q1, _⟩ := EvictObjectsInternal_props heq
    rw [← h.1]
    exact q1 hr

theorem abortObject_refNonneg {d : ObjectDirectory} {id : ObjectID}
    {c : Client} {d1 : ObjectDirectory} {c1 : Client} {r : Int}
    (h : d.AbortObject id c = some (d1, c1, r))
    (hr : RefNonneg d.object_table) : RefNonneg d1.object_table := by
  unfold ObjectDirectory.AbortObject at h
  cases hf : tableFind d.object_table id with
  | none => rw [hf] at h; simp at h
  | some e =>
      rw [hf] at h
      simp only [] at h
      by_cases hst : e.state = .sealed
      · rw [if_pos hst] at h
        by_cases hm : id ∈ c.object_ids
        · simp only [hm, if_true, if_pos rfl] at h
          simp at h
          rw [← h.1]
          exact eraseObject_refNonneg id hr
        · simp only [hm, if_false] at h
          simp at h
          rw [← h.1]
          exact hr
      · rw [if_neg hst] at h
        simp at h

theorem register_refNonneg {d : ObjectDirectory} {id : ObjectID} {c : Client}
    {d1 : ObjectDirectory} {c1 : Client} {ob : PlasmaObject}
    (h : d.RegisterSealedObjectToClient id c = some (d1, c1, ob))
    (hr : RefNonneg d.object_table) : RefNonneg d1.object_table := by
  unfold ObjectDirectory.RegisterSealedObjectToClient at h
  cases hf : tableFind d.object_table id with
  | none => rw [hf] at h; simp at h
  | some e =>
      rw [hf] at h
      simp at h
      rw [← h.1]
      have hee : 0 ≤ e.ref_count := refNonneg_of_find hr hf
      by_cases hm : id ∈ c.object_ids
      · rw [addToClient_mem hm]
        simp only []
        apply refNonneg_tableUpdate
        · exact hr
        · exact hee
      · obtain ⟨q1, q2, q3, _, _⟩ := addToClient_notmem (d := d) (e := e) hm
        rw [q1]
        apply refNonneg_tableUpdate hr
        simp only []
        omega

theorem createObject_refNonneg {fuel : Nat} {d : ObjectDirectory}
    {id : ObjectID} {f : Bool} {ds ms : Int} {dev : Nat} {c : Client}
    {now : Int} {d1 : ObjectDirectory} {c1 : Client}
    {oo : Option PlasmaObject} {s : Status}
    (h : d.CreateObject fuel id f ds ms dev c now = some (d1, c1, oo, s))
    (hr : RefNonneg d.object_table) : RefNonneg d1.object_table := by
  unfold ObjectDirectory.CreateObject at h
  cases hci : d.CreateObjectInternal fuel id f ds ms dev c now with
  | none => rw [hci] at h; simp at h
  | some t =>
      obtain ⟨dA, cA, oeA, sA⟩ := t
      rw [hci] at h
      have hra := createInternal_refNonneg hci hr
      by_cases hok : sA = .ok
      · simp only [hok, if_pos rfl] at h
        cases oeA with
        | none => simp at h
        | some eI =>
            simp at h
            rw [← h.1]
            exact hra
      · simp only [hok, if_neg hok] at h
        simp at h
        rw [← h.1]
        exact hra

theorem createAndSeal_refNonneg {fuel : Nat} {d : ObjectDirectory}
    {id : ObjectID} {f : Bool} {ds ms : Int} {c : Client} {now : Int}
    {d1 : ObjectDirectory} {c1 : Client} {oo : Option PlasmaObject}
    {s : Status}
    (h : d.CreateAndSealObject fuel id f ds ms c now = some (d1, c1, oo, s))
    (hr : RefNonneg d.object_table) (hcw : ClientWf d.object_table c) :
    RefNonneg d1.object_table := by
  unfold ObjectDirectory.CreateAndSealObject at h
  cases hci : d.CreateObjectInternal fuel id f ds ms 0 c now with
  | none => rw [hci] at h; simp at h
  | some t =>
      obtain ⟨dA, cA, oeA, sA⟩ := t
      rw [hci] at h
      by_cases hok : sA = .ok
      · have hfindnone : tableFind d.object_table id = none := by
          cases hx : tableFind d.object_table id with
          | none => rfl
          | some e0 =>
              unfold ObjectDirectory.CreateObjectInternal at hci
              rw [if_pos (by rw [hx]; rfl)] at hci
              simp at hci
              obtain ⟨_, _, _, hsA⟩ := hci
              rw [← hsA] at hok
              exact absurd hok (by decide)
        have hnc : id ∉ c.object_ids := by
          intro hmm
          obtain ⟨e0, hf0, _⟩ := hcw.2 id hmm
          rw [hfindnone] at hf0
          cases hf0
        obtain ⟨e2, hoe, href2, hst2, hfind2, hc1A, hpt, hcacheA, hextA, hRN⟩ :=
          createInternal_ok_props hci hok hnc
        subst hok
        rw [hoe] at h
        simp only [if_pos rfl] at h
        have hpre : ∀ i ∈ [id], ∃ e', tableFind dA.object_table i = some e' ∧
            e'.state = .created := by
          intro i hi
          simp at hi
          rw [hi]
          exact ⟨e2, hfind2, hst2⟩
        obtain ⟨d2s, hrun, hupd, hother, hnotif2, hcache2, hpol2, hext2⟩ :=
          sealLoop_spec [id] dA [] now (by simp) hpre
        have hseal : dA.SealObjectsInternal [id] now =
            some (d2s.emit ([] ++ [id].map (mkSealInfo dA.object_table))) := by
          unfold ObjectDirectory.SealObjectsInternal
          rw [hrun]
        rw [hseal] at h
        simp only [] at h
        obtain ⟨q1, _⟩ := sealLoop_preserve [id] dA [] now d2s _ hrun
        have hr2 : RefNonneg (d2s.emit
            ([] ++ [id].map (mkSealInfo dA.object_table))).object_table := by
          simp only [ObjectDirectory.emit]
          exact q1 (hRN hr)
        have hnd2 : cA.object_ids.Nodup := by
          rw [hc1A]
          simp [List.nodup_append, hcw.1, hnc]
        have hinv2 : ∀ i ∈ cA.object_ids, ∀ e',
            tableFind (d2s.emit
              ([] ++ [id].map (mkSealInfo dA.object_table))).object_table i =
              some e' → 1 ≤ e'.ref_count := by
          intro i hi e' hf'
          simp only [ObjectDirectory.emit] at hf'
          rw [hc1A] at hi
          simp at hi
          rcases hi with hi | hi
          · have hne : i ≠ id := fun hh => hnc (hh ▸ hi)
            rw [hother i (by simp [hne])] at hf'
            obtain ⟨e0, hf0, hr0⟩ := find_ref_transfer (hpt i hne) hf'
            rw [← hr0]
            exact clientWf_inv hcw i hi e0 hf0
          · rw [hi] at hf'
            rw [hupd id (by simp) e2 hfind2] at hf'
            injection hf' with hh
            rw [← hh]
            simp [href2]
        cases hrm : (d2s.emit
            ([] ++ [id].map (mkSealInfo dA.object_table))).RemoveFromClientObjectIds
            id cA with
        | none => rw [hrm] at h; simp at h
        | some t3 =>
            obtain ⟨d3, c3, r3⟩ := t3
            rw [hrm] at h
            obtain ⟨w1, _, _⟩ := removeFromClient_preserve hrm hr2 hnd2 hinv2
            by_cases hr3 : r3 = 1
            · simp only [hr3, if_pos rfl] at h
              simp at h
              rw [← h.1]
              exact w1
            · simp only [hr3, if_neg hr3] at h
              simp at h
      · simp only [hok, if_neg hok] at h
        simp at h
        rw [← h.1]
        exact createInternal_refNonneg hci hr

theorem disconnect_refNonneg {d : ObjectDirectory} {c : Client}
    {d1 : ObjectDirectory} {c1 : Client}
    (h : d.DisconnectClient c = some (d1, c1))
    (hr : RefNonneg d.object_table) (hk : KeysNodup d.object_table)
    (hcw : ClientWf d.object_table c) : RefNonneg d1.object_table := by
  unfold ObjectDirectory.DisconnectClient at h
  simp only [] at h
  obtain ⟨p1, p2, p3⟩ := disconnectEraseLoop_preserve c.object_ids
    c.object_ids
    { d with eviction_policy := d.eviction_policy.ClientDisconnected } []
    hr hk (clientWf_inv hcw)
  exact removeLoop_preserve _ _ _ _ _ h p1 hcw.1 p3

/-- Claim C9: after any of the public operations `create_object`,
`create_and_seal_object`, `seal_objects`, `delete_object`, `evict_objects`,
`abort_object`, `register_sealed_object_to_client`, or `disconnect_client`
returns (on a well-formed state: non-negative counts, duplicate-free table
keys, and a client whose referenced ids name live entries with a positive
count), every entry left in the object table has a non-negative reference
count. -/
theorem runOp_ref_count_nonneg (fuel : Nat) (now : Int) (d : ObjectDirectory)
    (c : Client) (op : DirOp) (d' : ObjectDirectory) (c' : Client)
    (h1 : RefNonneg d.object_table) (hk : KeysNodup d.object_table)
    (h2 : ClientWf d.object_table c)
    (hrun : runOp fuel now d c op = some (d', c')) :
    RefNonneg d'.object_table := by
  cases op with
  | createObj id f ds ms dev =>
      simp only [runOp] at hrun
      cases hco : d.CreateObject fuel id f ds ms dev c now with
      | none => rw [hco] at hrun; simp at hrun
      | some r =>
          rw [hco] at hrun
          simp at hrun
          rw [← hrun.1]
          exact createObject_refNonneg hco h1
  | createAndSeal id f ds ms =>
      simp only [runOp] at hrun
      cases hco : d.CreateAndSealObject fuel id f ds ms c now with
      | none => rw [hco] at hrun; simp at hrun
      | some r =>
          rw [hco] at hrun
          simp at hrun
          rw [← hrun.1]
          exact createAndSeal_refNonneg hco h1 h2
  | sealObjs ids =>
      simp only [runOp] at hrun
      cases hco : d.SealObjectsInternal ids now with
      | none => rw [hco] at hrun; simp at hrun
      | some dm =>
          rw [hco] at hrun
          simp at hrun
          rw [← hrun.1]
          exact sealInternal_refNonneg hco h1
  | deleteObj id =>
      simp only [runOp] at hrun
      simp at hrun
      rw [← hrun.1]
      exact deleteObject_refNonneg d id h1
  | evictObjs n =>
      simp only [runOp] at hrun
      cases hco : d.EvictObjects n with
      | none => rw [hco] at hrun; simp at hrun
      | some r =>
          rw [hco] at hrun
          simp at hrun
          rw [← hrun.1]
          exact evictObjects_refNonneg (by rw [hco]) h1
  | abortObj id =>
      simp only [runOp] at hrun
      cases hco : d.AbortObject id c with
      | none => rw [hco] at hrun; simp at hrun
      | some r =>
          rw [hco] at hrun
          simp at hrun
          rw [← hrun.1]
          exact abortObject_refNonneg (by rw [hco]) h1
  | registerObj id =>
      simp only [runOp] at hrun
      cases hco : d.RegisterSealedObjectToClient id c with
      | none => rw [hco] at hrun; simp at hrun
      | some r =>
          rw [hco] at hrun
          simp at hrun
          rw [← hrun.1]
          exact register_refNonneg (by rw [hco]) h1
  | disconnect =>
      simp only [runOp] at hrun
      exact disconnect_refNonneg hrun h1 hk h2

/-- Witness for the reference-count invariant claim: a concrete run of
`delete_object` on the empty directory. -/
theorem runOp_ref_count_nonneg_witness :
    RefNonneg (({} : ObjectDirectory).DeleteObject 0).1.object_table :=
  runOp_ref_count_nonneg 1 0 {} {} (.deleteObj 0)
    (({} : ObjectDirectory).DeleteObject 0).1 {}
    (by intro p hp; simp at hp) (by simp [KeysNodup])
    ⟨by simp, by simp⟩ rfl

/-- Claim C10: registering a sealed object to a client that already holds a
reference is idempotent per (client, id) pair: with the entry present and the
id already in the client's set, `RegisterSealedObjectToClient` leaves the
directory — entry reference count, object table, deletion cache, eviction
policy in-use accounting — and the client's id set unchanged, and only
re-populates the output descriptor. -/
theorem RegisterSealedObjectToClient_idempotent (d : ObjectDirectory)
    (id : ObjectID) (c : Client) (e : ObjectTableEntry)
    (hfind : tableFind d.object_table id = some e)
    (hmem : id ∈ c.object_ids) :
    d.RegisterSealedObjectToClient id c = some (d, c, PlasmaObject_init e) := by
  unfold ObjectDirectory.RegisterSealedObjectToClient
  rw [hfind]
  simp only []
  rw [addToClient_mem hmem]
  simp only []
  rw [tableUpdate_self hfind]

/-- Witness for the registration idempotence claim at a concrete state. -/
theorem RegisterSealedObjectToClient_idempotent_witness :
    exDirC10.RegisterSealedObjectToClient 4 { object_ids := [4] } =
      some (exDirC10, { object_ids := [4] },
        PlasmaObject_init { exEntrySealed with ref_count := 1 }) :=
  RegisterSealedObjectToClient_idempotent exDirC10 4 { object_ids := [4] }
    { exEntrySealed with ref_count := 1 } (by decide) (by decide)

/-- Claim C3: `abort_object` on a sealed entry: a caller that holds no
reference to the id gets 0 back with the directory and client untouched; a
caller that holds a reference gets the entry erased from the table (the id
no longer resolves), the id removed from its set, and 1 back. -/
theorem AbortObject_spec (d : ObjectDirectory) (id : ObjectID) (c : Client)
    (e : ObjectTableEntry)
    (hfind : tableFind d.object_table id = some e)
    (hsealed : e.state = .sealed)
    (hkeys : KeysNodup d.object_table) (hcnd : c.object_ids.Nodup) :
    (id ∉ c.object_ids → d.AbortObject id c = some (d, c, 0)) ∧
    (id ∈ c.object_ids →
      d.AbortObject id c =
        some (d.EraseObject id, { object_ids := c.object_ids.erase id }, 1) ∧
      tableFind (d.EraseObject id).object_table id = none ∧
      id ∉ c.object_ids.erase id) := by
  constructor
  · intro hnm
    unfold ObjectDirectory.AbortObject
    rw [hfind]
    simp [hsealed, hnm]
  · intro hm
    refine ⟨?_, eraseObject_find_self id hkeys, ?_⟩
    · unfold ObjectDirectory.AbortObject
      rw [hfind]
      simp [hsealed, hm]
    · intro hmm
      exact absurd ((List.Nodup.mem_erase_iff hcnd).mp hmm).1 (by simp)

/-- Witness for the abort claim: a non-holder gets 0 and no change; the
holder gets the entry erased and 1. -/
theorem AbortObject_spec_witness :
    (exDirC3.AbortObject 4 { object_ids := [] } =
      some (exDirC3, { object_ids := [] }, 0)) ∧
    (exDirC3.AbortObject 4 { object_ids := [4] } =
      some (exDirC3.EraseObject 4, { object_ids := [] }, 1)) ∧
    tableFind (exDirC3.EraseObject 4).object_table 4 = none := by
  have h1 := AbortObject_spec exDirC3 4 { object_ids := [] } exEntrySealed
    (by decide) (by decide) (by unfold KeysNodup; decide) (by decide)
  have h2 := AbortObject_spec exDirC3 4 { object_ids := [4] } exEntrySealed
    (by decide) (by decide) (by unfold KeysNodup; decide) (by decide)
  refine ⟨h1.1 (by decide), ?_, (h2.2 (by decide)).2.1⟩
  have hh := (h2.2 (by decide)).1
  simpa using hh

theorem mem_cacheAdd (cache : List ObjectID) (id : ObjectID) :
    id ∈ cacheAdd cache id := by
  unfold cacheAdd
  by_cases h : id ∈ cache
  · simp [h]
  · simp [h]

/-- Claim C4: `delete_object` returns exactly one of four outcomes: an
absent id yields ObjectNonexistent with nothing changed (so repeating it
yields ObjectNonexistent again); an unsealed entry joins the deletion cache
with ObjectNotSealed; a sealed entry still referenced joins the deletion
cache with ObjectInUse; a sealed idle entry is removed from the eviction
policy, erased from the table, one deletion notification is emitted, and OK
is returned. -/
theorem DeleteObject_spec (d : ObjectDirectory) (id : ObjectID) :
    (tableFind d.object_table id = none →
      d.DeleteObject id = (d, .objectNonexistent) ∧
      (d.DeleteObject id).1.DeleteObject id = (d, .objectNonexistent)) ∧
    (∀ e, tableFind d.object_table id = some e → e.state ≠ .sealed →
      d.DeleteObject id =
        ({ d with deletion_cache := cacheAdd d.deletion_cache id },
          .objectNotSealed) ∧
      id ∈ (d.DeleteObject id).1.deletion_cache) ∧
    (∀ e, tableFind d.object_table id = some e → e.state = .sealed →
      e.ref_count ≠ 0 →
      d.DeleteObject id =
        ({ d with deletion_cache := cacheAdd d.deletion_cache id },
          .objectInUse) ∧
      id ∈ (d.DeleteObject id).1.deletion_cache) ∧
    (∀ e, tableFind d.object_table id = some e → e.state = .sealed →
      e.ref_count = 0 →
      (d.DeleteObject id).2 = .ok ∧
      (d.DeleteObject id).1.eviction_policy =
        d.eviction_policy.RemoveObject id ∧
      (KeysNodup d.object_table →
        tableFind (d.DeleteObject id).1.object_table id = none) ∧
      (d.DeleteObject id).1.notifications = d.notifications ++
        [[{ object_id := id, is_deletion := true }]]) := by
  refine ⟨?_, ?_, ?_, ?_⟩
  · intro hf
    have h1 : d.DeleteObject id = (d, .objectNonexistent) := by
      unfold ObjectDirectory.DeleteObject
      rw [hf]
    exact ⟨h1, by rw [h1]; exact h1⟩
  · intro e hf hst
    have h1 : d.DeleteObject id =
        ({ d with deletion_cache := cacheAdd d.deletion_cache id },
          .objectNotSealed) := by
      unfold ObjectDirectory.DeleteObject
      rw [hf]
      simp only []
      rw [if_pos hst]
    refine ⟨h1, ?_⟩
    rw [h1]
    exact mem_cacheAdd d.deletion_cache id
  · intro e hf hst hrc
    have h1 : d.DeleteObject id =
        ({ d with deletion_cache := cacheAdd d.deletion_cache id },
          .objectInUse) := by
      unfold ObjectDirectory.DeleteObject
      rw [hf]
      simp only []
      rw [if_neg (by simp [hst]), if_pos hrc]
    refine ⟨h1, ?_⟩
    rw [h1]
    exact mem_cacheAdd d.deletion_cache id
  · intro e hf hst hrc
    have h1 : d.DeleteObject id =
        ((({ d with eviction_policy := d.eviction_policy.RemoveObject id }
            : ObjectDirectory).EraseObject id).emit
          [{ object_id := id, is_deletion := true }], .ok) := by
      unfold ObjectDirectory.DeleteObject
      rw [hf]
      simp only []
      rw [if_neg (by simp [hst]), if_neg (by simp [hrc])]
    rw [h1]
    refine ⟨rfl, ?_, ?_, ?_⟩
    · simp only [ObjectDirectory.emit]
      have he := eraseObject_fields
        ({ d with eviction_policy := d.eviction_policy.RemoveObject id }
          : ObjectDirectory) id
      simpa using he.2.1
    · intro hk
      simp only [ObjectDirectory.emit]
      exact eraseObject_find_self id hk
    · simp only [ObjectDirectory.emit]
      have he := eraseObject_fields
        ({ d with eviction_policy := d.eviction_policy.RemoveObject id }
          : ObjectDirectory) id
      simp [he.2.2.2]

/-- Witness for the delete claim: an unknown id is ObjectNonexistent twice;
deleting a sealed idle entry returns OK, erases it and notifies. -/
theorem DeleteObject_spec_witness :
    ({} : ObjectDirectory).DeleteObject 9 = ({}, .objectNonexistent) ∧
    (exDirC4.DeleteObject 4).2 = .ok ∧
    tableFind (exDirC4.DeleteObject 4).1.object_table 4 = none ∧
    (exDirC4.DeleteObject 4).1.notifications =
      [[{ object_id := 4, is_deletion := true }]] := by
  have h1 := (DeleteObject_spec {} 9).1 rfl
  have h4 := (DeleteObject_spec exDirC4 4).2.2.2 exEntrySealed
    (by decide) (by decide) (by decide)
  exact ⟨h1.1, h4.1, h4.2.2.1 (by unfold KeysNodup; decide),
    by simpa using h4.2.2.2⟩

/-- Claim C1 (code bug): evicting a sealed idle object without an external
store frees its memory and emits one deletion notification, but the entry
is not removed from the object table: the id still resolves, now in state
Evicted, although the branch's own comment says the entry is erased. -/
theorem evictInternal_no_ext_entry_remains :
    ∃ d', exDirC1.EvictObjectsInternal [4] = some d' ∧
      (tableFind d'.object_table 4).map ObjectTableEntry.state =
        some .evicted ∧
      (tableFind d'.object_table 4).map ObjectTableEntry.pointer =
        some none ∧
      d'.notifications = [[{ object_id := 4, is_deletion := true }]] ∧
      d'.allocator.allocated = 0 := by
  refine ⟨_, rfl, ?_, ?_, ?_, ?_⟩ <;> decide

/-- Claim C2 (code bug): a get on an evicted entry with an external store
whose fetch succeeds returns the id under `reconstructed`, but the entry is
left in state Created with `construct_duration` still -1: the `entries`
vector driving the mark-as-sealed loop is never populated. -/
theorem getObjects_reconstruct_not_sealed :
    ∃ r, exDirC2.GetObjects 1 [3] { object_ids := [] } 10 = some r ∧
      r.2.2.2.1 = [3] ∧
      (tableFind r.1.object_table 3).map ObjectTableEntry.state =
        some .created ∧
      (tableFind r.1.object_table 3).map ObjectTableEntry.construct_duration =
        some (-1) := by
  refine ⟨_, rfl, ?_, ?_, ?_⟩ <;> decide

/-- Claim C6 (code bug): when the external-store fetch fails after a
successful allocation, the id is omitted from `reconstructed` as specified,
but the entry's state is NOT rolled back to Evicted: it stays Created,
because the rollback loop iterates the never-populated `entries` vector. -/
theorem getObjects_failed_fetch_no_rollback :
    ∃ r, exDirC6.GetObjects 1 [3] { object_ids := [] } 10 = some r ∧
      r.2.2.2.1 = [] ∧
      (tableFind r.1.object_table 3).map ObjectTableEntry.state =
        some .created := by
  refine ⟨_, rfl, ?_, ?_⟩ <;> decide

theorem evictInternal_single_noext {d : ObjectDirectory} {id : ObjectID}
    {e : ObjectTableEntry} (hfind : tableFind d.object_table id = some e)
    (hsealed : e.state = .sealed) (href : e.ref_count = 0)
    (hext : d.external_store = none) :
    d.EvictObjectsInternal [id] =
      some ((d.freeEntry id).emit
        [{ object_id := id, is_deletion := true }]) := by
  have hext2 : (d.freeEntry id).external_store = none := by
    rw [(freeEntry_fields d id).2.2.1]
    exact hext
  unfold ObjectDirectory.EvictObjectsInternal
  rw [evictLoop, hfind]
  simp [hsealed, href, hext, evictLoop, hext2]

/-- Claim C5: releasing the last reference to a sealed object whose id sits
in the deletion cache removes the id from the cache and immediately evicts
the object — its memory is freed and a deletion notification is emitted —
instead of handing it to the eviction policy as a newly idle LRU entry (the
policy is untouched). -/
theorem removeFromClient_deletion_cache_evicts (d : ObjectDirectory)
    (id : ObjectID) (c : Client) (e : ObjectTableEntry)
    (hfind : tableFind d.object_table id = some e)
    (hsealed : e.state = .sealed) (href : e.ref_count = 1)
    (hmem : id ∈ c.object_ids) (hcache : id ∈ d.deletion_cache)
    (hext : d.external_store = none) (hcnd : d.deletion_cache.Nodup) :
    ∃ d', d.RemoveFromClientObjectIds id c =
        some (d', { object_ids := c.object_ids.erase id }, 1) ∧
      id ∉ d'.deletion_cache ∧
      d'.eviction_policy = d.eviction_policy ∧
      (tableFind d'.object_table id).map ObjectTableEntry.state =
        some .evicted ∧
      (tableFind d'.object_table id).map ObjectTableEntry.pointer =
        some none ∧
      d'.notifications = d.notifications ++
        [[{ object_id := id, is_deletion := true }]] := by
  unfold ObjectDirectory.RemoveFromClientObjectIds
  rw [hfind]
  simp only [hmem, if_true]
  have hz : e.ref_count - 1 = 0 := by omega
  have hfind1 : tableFind (tableUpdate d.object_table id
      ({ e with ref_count := e.ref_count - 1 } : ObjectTableEntry)) id =
      some { e with ref_count := e.ref_count - 1 } :=
    tableFind_update_self _ hfind
  have hev := @evictInternal_single_noext
    { d with
      object_table := (tableUpdate d.object_table id
        { e with ref_count := e.ref_count - 1 }),
      deletion_cache := d.deletion_cache.erase id }
    id { e with ref_count := e.ref_count - 1 }
    hfind1 (by simpa using hsealed) (by simpa using hz) hext
  simp only [hz] at hev hfind1 ⊢
  simp only [hcache, if_true]
  rw [hev]
  refine ⟨_, rfl, ?_, ?_, ?_, ?_, ?_⟩
  · rw [(emit_fields _ _).2.1, (freeEntry_fields _ _).1]
    simp only []
    intro hmm
    exact absurd ((List.Nodup.mem_erase_iff hcnd).mp hmm).1 (by simp)
  · rw [(emit_fields _ _).2.2.1, (freeEntry_fields _ _).2.1]
  · rw [(emit_fields _ _).1]
    unfold ObjectDirectory.freeEntry
    rw [hfind1]
    simp only []
    rw [tableFind_update_self _ hfind1]
    simp
  · rw [(emit_fields _ _).1]
    unfold ObjectDirectory.freeEntry
    rw [hfind1]
    simp only []
    rw [tableFind_update_self _ hfind1]
    simp
  · simp [ObjectDirectory.emit, (freeEntry_fields _ _).2.2.2]

/-- Witness for the deferred-delete claim at a concrete state. -/
theorem removeFromClient_deletion_cache_evicts_witness :
    ∃ d', exDirC5.RemoveFromClientObjectIds 4 { object_ids := [4] } =
        some (d', { object_ids := [] }, 1) ∧
      4 ∉ d'.deletion_cache ∧
      d'.eviction_policy = exDirC5.eviction_policy := by
  obtain ⟨d', hrun, hc, hp, _, _, _⟩ :=
    removeFromClient_deletion_cache_evicts exDirC5 4 { object_ids := [4] }
      exEntryC5 (by decide) (by decide) (by decide) (by decide) (by decide)
      (by decide) (by decide)
  exact ⟨d', hrun, hc, hp⟩

/-- Claim C8: `seal_objects` requires every id of the batch to name a
Created entry; each entry becomes Sealed with `construct_duration` stamped
as now minus create_time, one notification per id carrying the object's
sizes with `is_deletion = false` is collected, and the whole batch is
emitted as a single callback invocation after every entry has been
transitioned. -/
theorem SealObjectsInternal_spec (d : ObjectDirectory) (ids : List ObjectID)
    (now : Int) (hnd : ids.Nodup)
    (hpre : ∀ id ∈ ids, ∃ e, tableFind d.object_table id = some e ∧
      e.state = .created) :
    ∃ d', d.SealObjectsInternal ids now = some d' ∧
      (∀ id ∈ ids, ∀ e, tableFind d.object_table id = some e →
        tableFind d'.object_table id =
          some { e with state := .sealed,
                        construct_duration := now - e.create_time }) ∧
      d'.notifications = d.notifications ++
        [ids.map (mkSealInfo d.object_table)] ∧
      ∀ id ∈ ids, ∀ e, tableFind d.object_table id = some e →
        mkSealInfo d.object_table id =
          { object_id := id, data_size := e.data_size,
            metadata_size := e.metadata_size, is_deletion := false } := by
  obtain ⟨d1, hrun, hupd, hother, hnotif, _, _, _⟩ :=
    sealLoop_spec ids d [] now hnd hpre
  refine ⟨d1.emit (ids.map (mkSealInfo d.object_table)), ?_, hupd, ?_, ?_⟩
  · unfold ObjectDirectory.SealObjectsInternal
    rw [hrun]
    simp
  · simp [ObjectDirectory.emit, hnotif]
  · intro id hid e hf
    simp [mkSealInfo, hf]

/-- Witness for the seal-batch claim: two created entries sealed together,
with the two notifications emitted as one batch. -/
theorem SealObjectsInternal_spec_witness :
    ∃ d', exDirC8.SealObjectsInternal [1, 2] 10 = some d' ∧
      (tableFind d'.object_table 1).map ObjectTableEntry.state =
        some .sealed ∧
      (tableFind d'.object_table 2).map ObjectTableEntry.state =
        some .sealed ∧
      (tableFind d'.object_table 1).map ObjectTableEntry.construct_duration =
        some 7 ∧
      d'.notifications =
        [[{ object_id := 1, data_size := 10, metadata_size := 2,
            is_deletion := false },
          { object_id := 2, data_size := 20, metadata_size := 0,
            is_deletion := false }]] := by
  obtain ⟨d', hrun, hupd, hnotif, _⟩ :=
    SealObjectsInternal_spec exDirC8 [1, 2] 10 (by decide)
      (by intro i hi
          simp at hi
          rcases hi with rfl | rfl
          · exact ⟨exEntryCreatedA, by decide, by decide⟩
          · exact ⟨exEntryCreatedB, by decide, by decide⟩)
  refine ⟨d', hrun, ?_, ?_, ?_, ?_⟩
  · rw [hupd 1 (by simp) exEntryCreatedA (by decide)]
    decide
  · rw [hupd 2 (by simp) exEntryCreatedB (by decide)]
    decide
  · rw [hupd 1 (by simp) exEntryCreatedA (by decide)]
    decide
  · rw [hnotif]
    decide

theorem evictInternal_find_none {d d1 : ObjectDirectory} {ids : List ObjectID}
    {id0 : ObjectID} (h : d.EvictObjectsInternal ids = some d1)
    (hf : tableFind d.object_table id0 = none) :
    tableFind d1.object_table id0 = none := by
  obtain ⟨_, _, q3, _⟩ := EvictObjectsInternal_props h
  have hq := q3 id0
  rw [hf] at hq
  cases hx : tableFind d1.object_table id0 with
  | none => rfl
  | some _ => rw [hx] at hq; simp at hq

/-- Claim C7 counterexample: with one idle 64-byte sealed object, a full
64-byte footprint and a 100-byte create with `evict_if_full = true`,
`require_space` returns false and create_object returns OutOfMemory — but
the object table does not stay unchanged: the idle entry selected by the
policy was still evicted (its state flipped to Evicted and its memory was
freed), so an existing entry was modified. -/
theorem createObject_outOfMemory_table_changed :
    ∃ r, exDirC7.CreateObject 1 9 true 100 0 0 { object_ids := [] } 0 =
        some r ∧
      r.2.2.2 = .outOfMemory ∧
      (tableFind r.1.object_table 9).isSome = false ∧
      r.1.object_table ≠ exDirC7.object_table := by
  refine ⟨_, rfl, ?_, ?_, ?_⟩ <;> decide

/-- Claim C7 (amended): when create_object runs with `evict_if_full = true`
on a fresh id with positive total size, the host allocation fails for lack
of footprint, and the eviction policy's `require_space` answers false, the
call returns OutOfMemory and no entry is inserted for the new id — but the
idle victims selected by `require_space` are still evicted first, so
existing entries may be modified. -/
theorem createObject_requireSpace_false (fuel : Nat) (d : ObjectDirectory)
    (id : ObjectID) (ds ms : Int) (c : Client) (now : Int)
    (d3 : ObjectDirectory)
    (habs : tableFind d.object_table id = none)
    (hpos : 0 < ds + ms)
    (halloc : ¬ d.allocator.allocated + (ds + ms) ≤
      d.allocator.footprint_limit)
    (hreq : (d.eviction_policy.RequireSpace (ds + ms) d.allocator).2.2 =
      false)
    (hev : ObjectDirectory.EvictObjectsInternal
        { d with eviction_policy :=
            (d.eviction_policy.RequireSpace (ds + ms) d.allocator).1 }
        (d.eviction_policy.RequireSpace (ds + ms) d.allocator).2.1
        = some d3) :
    d.CreateObject (fuel + 1) id true ds ms 0 c now =
      some (d3, c, none, .outOfMemory) ∧
    tableFind d3.object_table id = none := by
  have hfind3 : tableFind d3.object_table id = none :=
    evictInternal_find_none hev habs
  refine ⟨?_, hfind3⟩
  have hma : d.allocator.Memalign (ds + ms) = none := by
    unfold PlasmaAllocator.Memalign
    rw [if_neg halloc]
  have hz : d.EvictObjectsInternal [] = some d := by
    simp [ObjectDirectory.EvictObjectsInternal]
  have hal : d.AllocateMemory (fuel + 1) id {} (ds + ms) true c true now 0 =
      some (d3, ObjectTableEntry.Reset {}, c, .outOfMemory) := by
    unfold ObjectDirectory.AllocateMemory
    rw [hz]
    simp only []
    rw [allocLoop, entryAlloc_host, hma]
    simp only []
    simp only [hreq]
    simp [hev]
  have hci : d.CreateObjectInternal (fuel + 1) id true ds ms 0 c now =
      some (d3, c, none, .outOfMemory) := by
    unfold ObjectDirectory.CreateObjectInternal
    rw [habs]
    simp only [Option.isSome_none, Bool.false_eq_true, if_false]
    rw [if_neg (by omega), hal]
    simp
  unfold ObjectDirectory.CreateObject
  rw [hci]
  simp

/-- Witness for the amended out-of-memory claim at the concrete state of the
counterexample. -/
theorem createObject_requireSpace_false_witness :
    exDirC7.CreateObject 1 9 true 100 0 0 { object_ids := [] } 0 =
      some (exDirC7evicted, { object_ids := [] }, none, .outOfMemory) ∧
    tableFind exDirC7evicted.object_table 9 = none :=
  createObject_requireSpace_false 0 exDirC7 9 100 0 { object_ids := [] } 0
    exDirC7evicted (by decide) (by decide) (by decide) (by decide) (by decide)
